import Mathlib

/-!
Verification of `lib/template.js` (the `mack` scaffolding command).

The development shallowly embeds the template engine: JSON-shaped values,
the `mergeJSON` manifest merge, the per-file copy/skip/merge operations,
template discovery (`loadTemplates`) and resolution, the hook runner
(`script` / `invoke`) and the orchestrating `run` pipeline.

Filesystem contents are modelled structurally: a file system is a finite
association list from paths to already-parsed JSON values (`require` on a
JSON file yields its parsed value; a byte-for-byte stream copy is value
equality).  Asynchronous behaviour is modelled by an explicit event trace:
hook spawns, per-file operation launches, per-file settlements (whose order
is a parameter, reflecting the unordered completion of concurrent I/O) and
calls to the CLI failure reporter.
-/

namespace Mack

/-- JavaScript/JSON values as manipulated by `template.js`: `undefined`,
`null`, booleans, (integer) numbers, strings, arrays and objects.  Objects
are ordered association lists, matching JavaScript property order. -/
inductive J where
  | undef
  | null
  | bool (b : Bool)
  | num (n : Int)
  | str (s : String)
  | arr (elems : List J)
  | obj (fields : List (String × J))

/-- Property lookup on an object field list: first binding wins
(JavaScript objects have unique keys, so this matches property access). -/
def oget : List (String × J) → String → Option J
  | [], _ => none
  | (k, v) :: rest, key => if k = key then some v else oget rest key

/-- Property assignment `o[k] = v` on an object field list: replaces the
value at the first binding of `k`, or appends a new binding — JavaScript
property-set semantics, preserving property insertion order. -/
def oset : List (String × J) → String → J → List (String × J)
  | [], key, v => [(key, v)]
  | (k, w) :: rest, key, v =>
    if k = key then (k, v) :: rest else (k, w) :: oset rest key v

/-- Semantics of `Object.assign(a, b)` on field lists: copy every binding
of `b` onto `a`, in order (including `undefined`-valued bindings). -/
def oassign (a b : List (String × J)) : List (String × J) :=
  b.foldl (fun acc p => oset acc p.1 p.2) a

/-- JavaScript truthiness: `undefined`, `null`, `false`, `0` and `""` are
falsy; every other value (including `{}` and `[]`) is truthy. -/
def truthy : J → Bool
  | .undef => false
  | .null => false
  | .bool b => b
  | .num n => n != 0
  | .str s => s ≠ ""
  | .arr _ => true
  | .obj _ => true

/-- The own enumerable properties of a value, as consumed by
`Object.assign` sources and property access: objects expose their fields,
strings and arrays expose index properties, primitives expose nothing. -/
def ownFields : J → List (String × J)
  | .obj fs => fs
  | .str s => (s.toList.enum).map (fun p => (toString p.1, J.str (String.mk [p.2])))
  | .arr xs => (xs.enum).map (fun p => (toString p.1, p.2))
  | _ => []

/-- Own fields of an optional (possibly absent, i.e. `undefined`) value. -/
def ownFieldsOpt : Option J → List (String × J)
  | some v => ownFields v
  | none => []

/-- Semantics of `path.basename`: the final path component of a path
(trailing slashes ignored). -/
def basename (p : String) : String :=
  String.mk (((p.toList.reverse.dropWhile (fun c => c = '/')).takeWhile (fun c => c ≠ '/')).reverse)

mutual

/-- The value observed by `JSON.stringify`: object properties whose value
is `undefined` are omitted; `undefined` array elements print as `null`. -/
def jnorm : J → J
  | .obj fs => .obj (jnormFields fs)
  | .arr xs => .arr (jnormArr xs)
  | .undef => .undef
  | .null => .null
  | .bool b => .bool b
  | .num n => .num n
  | .str s => .str s

/-- Action of `jnorm` on an object's field list. -/
def jnormFields : List (String × J) → List (String × J)
  | [] => []
  | (k, v) :: rest =>
    match v with
    | .undef => jnormFields rest
    | v => (k, jnorm v) :: jnormFields rest

/-- Action of `jnorm` on an array's element list. -/
def jnormArr : List J → List J
  | [] => []
  | x :: rest =>
    match x with
    | .undef => .null :: jnormArr rest
    | x => jnorm x :: jnormArr rest

end

/-! ## ManifestMerger — `mergeJSON` (template.js lines 150-170)

The JavaScript builds `opts = { bake: undefined }`, conditionally adds
`opts.devDependencies = assign({}, devs, data.devDependencies)` and
`opts.dependencies = assign({}, deps, data.dependencies)`, computes
`result = assign({}, json, data, opts)` and writes
`JSON.stringify(result, null, 2)` — which omits `undefined`-valued keys,
hence removes `bake`.  Here `json` is the template manifest and `data`
the pre-existing destination manifest. -/

/-- Intermediate `opts` object of `mergeJSON`: binding order is `bake`,
then (when the template declares them) `devDependencies`, `dependencies`. -/
def mergeOpts (json data : J) : List (String × J) :=
  let devs := oget (ownFields json) "devDependencies"
  let deps := oget (ownFields json) "dependencies"
  let o1 := [("bake", J.undef)]
  let o2 :=
    if truthy (devs.getD J.undef) then
      oset o1 "devDependencies"
        (J.obj (oassign (oassign [] (ownFieldsOpt devs))
          (ownFieldsOpt (oget (ownFields data) "devDependencies"))))
    else o1
  if truthy (deps.getD J.undef) then
    oset o2 "dependencies"
      (J.obj (oassign (oassign [] (ownFieldsOpt deps))
        (ownFieldsOpt (oget (ownFields data) "dependencies"))))
  else o2

/-- Field list of `result = assign({}, json, data, opts)`. -/
def mergeResultFields (json data : J) : List (String × J) :=
  oassign (oassign (oassign [] (ownFields json)) (ownFields data)) (mergeOpts json data)

/-- Value written to the destination manifest by `mergeJSON`:
the stringified (hence `undefined`-stripped) merge result. -/
def mergeJSONContent (json data : J) : J :=
  jnorm (J.obj (mergeResultFields json data))

/-! ## Filesystem and per-file operations

A filesystem is a finite map from paths to parsed contents.  Each
operation additionally returns the warnings it reports and whether its
promise fulfils; the `ok` argument injects an I/O fault (`false` makes
the underlying read/write fail, rejecting the promise without completing
the write). -/

/-- Filesystem: an association list from paths to (parsed) contents. -/
abbrev Fs := List (String × J)

/-- Observable events of a run: hook spawns (`script`), per-file
operation launches and settlements, warnings, and calls to the
top-level failure reporter `CLI.fail`. -/
inductive Ev where
  | spawn (hook : String) (s : J)
  | warn (msg : String)
  | opStart (file : String)
  | opDone (file : String) (ok : Bool)
  | failE

/-- Raw stream copy (template.js lines 172-189): when the destination
exists the output is a no-op stream and a "skipping" warning is issued;
otherwise the source content is piped to the destination. -/
def stream (ok : Bool) (fs : Fs) (file dest : String) : Fs × List Ev × Bool :=
  if (oget fs dest).isSome then
    (fs, [Ev.warn "already exists, skipping"], ok)
  else
    ((if ok then oset fs dest ((oget fs file).getD J.null) else fs), [], ok)

/-- Manifest dispatch (template.js lines 141-148): merge into an existing
destination `package.json`, else stream-copy the template manifest. -/
def json (ok : Bool) (fs : Fs) (file dest : String) : Fs × List Ev × Bool :=
  match oget fs dest with
  | some data =>
    ((if ok then oset fs dest (mergeJSONContent ((oget fs file).getD J.null) data) else fs),
     [Ev.warn "already exists, merging"], ok)
  | none => stream ok fs file dest

/-- Per-file operation `template(file, dest)` (template.js lines 135-139):
destination is the file's basename resolved against the working directory;
`package.json` goes through the manifest path, everything else is streamed. -/
def templateOp (ok : Bool) (fs : Fs) (cwd file : String) : Fs × List Ev × Bool :=
  let dest := cwd ++ "/" ++ basename file
  if basename file = "package.json" then json ok fs file dest
  else stream ok fs file dest

/-! ## TemplateRegistry — `loadTemplates` (template.js lines 234-264) -/

/-- One discovered template: its directory, its name (the directory's
basename) and its parsed manifest (`{}` when absent). -/
structure TemplateEntry where
  dir : String
  name : String
  json : J

/-- Discovery environment: the ordered search roots and the directory
structure they contain.  `manifestAt` returns the parsed `package.json`
of a template directory when that file exists. -/
structure DiscoverEnv where
  dirs : List String
  rootExists : String → Bool
  listDir : String → List String
  isDir : String → Bool
  manifestAt : String → Option J

/-- Subdirectories of one search root (template.js lines 266-271). -/
def loadTemplatesFrom (env : DiscoverEnv) (dir : String) : List String :=
  ((env.listDir dir).map (fun e => dir ++ "/" ++ e)).filter env.isDir

/-- Template discovery: existing roots in priority order, each root's
template subdirectories flattened in order, each mapped to an entry. -/
def loadTemplates (env : DiscoverEnv) : List TemplateEntry :=
  (((env.dirs.filter env.rootExists).map (loadTemplatesFrom env)).foldl (· ++ ·) []).map
    (fun dir => ⟨dir, basename dir, (env.manifestAt (dir ++ "/package.json")).getD (J.obj [])⟩)

/-! ## HookRunner — `script` / `invoke` (template.js lines 213-232) -/

/-- Hook sub-step `script(name)`: an absent or falsy configured script
resolves immediately with no spawn; otherwise the script is spawned and
the promise's fate is the spawned command's outcome (`execOk`). -/
def script (execOk : J → Bool) (scr : List (String × J)) (name : String) : List Ev × Bool :=
  let s := (oget scr name).getD J.undef
  if truthy s then ([Ev.spawn name s], execOk s) else ([], true)

/-- Phase runner `invoke(name)`: `script('pre'+name)`, then `script(name)`,
then `script('post'+name)`, sequenced by promise chaining — a rejection
skips the remaining sub-hooks. -/
def invoke (execOk : J → Bool) (scr : List (String × J)) (name : String) : List Ev × Bool :=
  if (script execOk scr ("pre" ++ name)).2 then
    if (script execOk scr name).2 then
      ((script execOk scr ("pre" ++ name)).1 ++ (script execOk scr name).1
        ++ (script execOk scr ("post" ++ name)).1, (script execOk scr ("post" ++ name)).2)
    else ((script execOk scr ("pre" ++ name)).1 ++ (script execOk scr name).1, false)
  else ((script execOk scr ("pre" ++ name)).1, false)

/-- Hook configuration of a run: `template.json ? template.json.bake || {} : {}`. -/
def bakeConfig (t : TemplateEntry) : J :=
  if truthy t.json then
    let b := (oget (ownFields t.json) "bake").getD J.undef
    if truthy b then b else J.obj []
  else J.obj []

/-- Script table of a run: `this.config.scripts || {}` as a field list. -/
def scriptsOf (t : TemplateEntry) : List (String × J) :=
  let s := (oget (ownFields (bakeConfig t)) "scripts").getD J.undef
  ownFields (if truthy s then s else J.obj [])

/-! ## TemplateExpander — `expandTemplateDirectory` (template.js lines 107-133) -/

/-- Result of `expandTemplateDirectory`: the template's fields spread into
a fresh object, plus a `promises` key — absent (`none`) when the template
directory does not exist and the template is returned unchanged. -/
structure Expanded where
  dir : String
  name : String
  json : J
  promises : Option (List String)

/-- Files launched by the expansion: the template directory's immediate
entries resolved against it, filtered to regular files. -/
def expandFiles (env_listDir : String → List String) (env_isFile : String → Bool)
    (dir : String) : List String :=
  ((env_listDir dir).map (fun e => dir ++ "/" ++ e)).filter env_isFile

/-- Runtime environment of a run: the discovered templates, the directory
structure, the per-file I/O fault oracle `opOk` and the hook command
outcome oracle `execOk`. -/
structure RunEnv where
  templates : List TemplateEntry
  dirExists : String → Bool
  listDir : String → List String
  isFile : String → Bool
  opOk : String → Bool
  execOk : J → Bool

/-- Launch of all per-file operations, in listing order.  The observable
launch of operation `f` is `opStart f` followed by the warnings its
synchronous part reports.  Destinations of distinct listed files are
distinct basenames, so folding the filesystem effects in listing order
coincides with any settlement order; a faulted operation (`opOk f =
false`) does not complete its write. -/
def launchStep (env : RunEnv) (cwd : String) (acc : Fs × List Ev) (f : String) : Fs × List Ev :=
  ((templateOp (env.opOk f) acc.1 cwd f).1,
   acc.2 ++ (Ev.opStart f :: (templateOp (env.opOk f) acc.1 cwd f).2.1))

/-- Folding the launches of all per-file operations over the filesystem. -/
def launchOps (env : RunEnv) (cwd : String) (files : List String) (fs : Fs) : Fs × List Ev :=
  files.foldl (launchStep env cwd) (fs, [])

/-- Expansion step: if the template directory does not exist the template
is returned unchanged (no `promises` key, nothing read or written);
otherwise every listed file's operation is launched. -/
def expandTemplateDirectory (env : RunEnv) (cwd : String) (fs : Fs) (t : TemplateEntry) :
    Expanded × Fs × List Ev :=
  if env.dirExists t.dir then
    let files := expandFiles env.listDir env.isFile t.dir
    let le := launchOps env cwd files fs
    (⟨t.dir, t.name, t.json, some files⟩, le.1, le.2)
  else (⟨t.dir, t.name, t.json, none⟩, fs, [])

/-! ## Orchestrator — `run` (template.js lines 191-211) -/

/-- Final fate of a run: normal completion, a single surfacing through
`CLI.fail` (which terminates the process), or a rejected promise escaping
`run`/`init` uncaught. -/
inductive Outcome where
  | ok
  | surfaced
  | escaped
deriving DecidableEq, Repr

/-- Settlement events of the launched operations, in the order given by
`settle` (a permutation of the launched files chosen by the scheduler).
`Promise.all` rejects at the first failed settlement; `CLI.fail`
terminates there, so later settlements are not observed. -/
def settleTrace (opOk : String → Bool) : List String → List Ev
  | [] => []
  | f :: rest => Ev.opDone f (opOk f) :: (if opOk f then settleTrace opOk rest else [])

/-- Template resolution inside `run`: first discovered template carrying
the requested name, which defaults to `"default"`. -/
def resolveT (env : RunEnv) (name? : Option String) : Option TemplateEntry :=
  env.templates.find? (fun t => t.name == name?.getD "default")

/-- The orchestrating `run(name, args)` pipeline.  An unresolved name is
reported through `CLI.fail` at once.  `invoke('start')` is awaited; its
rejection escapes (no handler in `run` or `init` catches it).  Then the
expansion is launched; `Promise.all(dir.promises)` — a `TypeError`
rejection when the directory was missing and `promises` is `undefined` —
and `invoke('install')` are guarded by `.catch(CLI.fail)`, so any
rejection there surfaces exactly once. -/
def run (env : RunEnv) (cwd : String) (fs : Fs) (name? : Option String) (settle : List String) :
    List Ev × Fs × Outcome :=
  match resolveT env name? with
  | none => ([Ev.failE], fs, Outcome.surfaced)
  | some t =>
    let scr := scriptsOf t
    let s := invoke env.execOk scr "start"
    if s.2 then
      let e := expandTemplateDirectory env cwd fs t
      match e.1.promises with
      | none => (s.1 ++ e.2.2 ++ [Ev.failE], e.2.1, Outcome.surfaced)
      | some _ =>
        let dn := settleTrace env.opOk settle
        if settle.all env.opOk then
          let i := invoke env.execOk scr "install"
          if i.2 then (s.1 ++ e.2.2 ++ dn ++ i.1, e.2.1, Outcome.ok)
          else (s.1 ++ e.2.2 ++ dn ++ i.1 ++ [Ev.failE], e.2.1, Outcome.surfaced)
        else (s.1 ++ e.2.2 ++ dn ++ [Ev.failE], e.2.1, Outcome.surfaced)
    else (s.1, fs, Outcome.escaped)

/-- Calls to the failure reporter. -/
def isFailEv : Ev → Bool
  | .failE => true
  | _ => false

/-- Number of surfacings through the failure reporter in a trace. -/
def countFail (tr : List Ev) : Nat :=
  tr.countP isFailEv

/-- Start-phase hook spawns. -/
def isStartHook : Ev → Bool
  | .spawn n _ => n == "prestart" || n == "start" || n == "poststart"
  | _ => false

/-- Install-phase hook spawns. -/
def isInstallHook : Ev → Bool
  | .spawn n _ => n == "preinstall" || n == "install" || n == "postinstall"
  | _ => false

/-- Events belonging to a per-file expansion operation. -/
def isOpEvent : Ev → Bool
  | .opStart _ => true
  | .opDone _ _ => true
  | .warn _ => true
  | _ => false

/-- Test for the `undefined` value. -/
def J.isUndef : J → Bool
  | .undef => true
  | _ => false

/-- Well-formed object field list: pairwise distinct keys (as for any
object produced by `JSON.parse` / `require` of a JSON file). -/
def NodupKeys (l : List (String × J)) : Prop := (l.map Prod.fst).Nodup

/-- Well-formedness of an optional dependency map as found in a parsed
manifest: absent, or an object with distinct keys and no `undefined`
values (values parsed from JSON are never `undefined`). -/
def DepOk : Option J → Prop
  | none => True
  | some (J.obj l) => NodupKeys l ∧ ∀ p ∈ l, p.2.isUndef = false
  | some _ => False

/-! ## Lemmas about object primitives -/

theorem oget_append (a b : List (String × J)) (k : String) :
    oget (a ++ b) k = match oget a k with | some v => some v | none => oget b k := by
  induction a with
  | nil => rfl
  | cons p rest ih =>
    obtain ⟨k', v⟩ := p
    by_cases h : k' = k
    · simp [oget, h]
    · simp [oget, h, ih]

theorem oget_eq_none (a : List (String × J)) (k : String) :
    oget a k = none ↔ ∀ p ∈ a, p.1 ≠ k := by
  induction a with
  | nil => simp [oget]
  | cons p rest ih =>
    obtain ⟨k', v⟩ := p
    by_cases h : k' = k
    · simp [oget, h]
    · simp [oget, h, ih]

theorem key_mem_keys {l : List (String × J)} {p : String × J} (hp : p ∈ l) :
    p.1 ∈ l.map Prod.fst :=
  List.mem_map_of_mem Prod.fst hp

theorem head_key_notin {k : String} {v : J} {rest : List (String × J)}
    (ha : NodupKeys ((k, v) :: rest)) : ∀ p ∈ rest, p.1 ≠ k := by
  intro p hp hc
  have h1 : p.1 ∈ rest.map Prod.fst := key_mem_keys hp
  rw [hc] at h1
  exact (List.nodup_cons.mp ha).1 h1

theorem oget_some_mem {a : List (String × J)} {k : String} {v : J}
    (h : oget a k = some v) : (k, v) ∈ a := by
  induction a with
  | nil => simp [oget] at h
  | cons p rest ih =>
    obtain ⟨k', w⟩ := p
    by_cases hk : k' = k
    · subst hk
      simp [oget] at h
      subst h
      exact List.mem_cons_self _ _
    · simp [oget, hk] at h
      exact List.mem_cons_of_mem _ (ih h)

theorem oget_isSome_of_mem {a : List (String × J)} {p : String × J}
    (hp : p ∈ a) : (oget a p.1).isSome = true := by
  induction a with
  | nil => simp at hp
  | cons q rest ih =>
    obtain ⟨k', w⟩ := q
    rcases List.mem_cons.mp hp with h | h
    · subst h
      simp [oget]
    · by_cases hk : k' = p.1
      · simp [oget, hk]
      · simp [oget, hk]
        exact ih h

theorem oget_mem_some {a : List (String × J)} {p : String × J}
    (ha : NodupKeys a) (hp : p ∈ a) : oget a p.1 = some p.2 := by
  induction a with
  | nil => simp at hp
  | cons q rest ih =>
    obtain ⟨k', w⟩ := q
    have ha' : NodupKeys rest := (List.nodup_cons.mp ha).2
    rcases List.mem_cons.mp hp with h | h
    · subst h
      simp [oget]
    · have hne : ¬ k' = p.1 := fun hc => head_key_notin ha p h hc.symm
      simp [oget, hne]
      exact ih ha' h

theorem oget_oset_self (a : List (String × J)) (k : String) (v : J) :
    oget (oset a k v) k = some v := by
  induction a with
  | nil => simp [oset, oget]
  | cons p rest ih =>
    obtain ⟨k', w⟩ := p
    by_cases h : k' = k
    · simp [oset, oget, h]
    · simp [oset, oget, h, ih]

theorem oget_oset_ne (a : List (String × J)) (k k' : String) (v : J) (h : k' ≠ k) :
    oget (oset a k v) k' = oget a k' := by
  have hkk : ¬ k = k' := fun hc => h hc.symm
  induction a with
  | nil => simp [oset, oget, hkk]
  | cons p rest ih =>
    obtain ⟨k'', w⟩ := p
    by_cases h2 : k'' = k
    · subst h2
      simp [oset, oget, hkk]
    · simp only [oset, if_neg h2]
      by_cases h3 : k'' = k'
      · simp [oget, h3]
      · simp [oget, h3, ih]

theorem oset_fresh (a : List (String × J)) (k : String) (v : J)
    (h : oget a k = none) : oset a k v = a ++ [(k, v)] := by
  induction a with
  | nil => rfl
  | cons p rest ih =>
    obtain ⟨k', w⟩ := p
    by_cases hk : k' = k
    · simp [oget, hk] at h
    · simp [oget, hk] at h
      simp [oset, hk, ih h]

theorem oset_update (a : List (String × J)) (k : String) (v : J)
    (ha : NodupKeys a) (w : J) (h : oget a k = some w) :
    oset a k v = a.map (fun p => if p.1 = k then (p.1, v) else p) := by
  induction a with
  | nil => simp [oget] at h
  | cons p rest ih =>
    obtain ⟨k', u⟩ := p
    have ha' : NodupKeys rest := (List.nodup_cons.mp ha).2
    by_cases hk : k' = k
    · subst hk
      have hne : ∀ p ∈ rest, p.1 ≠ k' := head_key_notin ha
      have hrest : rest.map (fun p => if p.1 = k' then (p.1, v) else p) = rest := by
        have h1 : rest.map (fun p => if p.1 = k' then (p.1, v) else p) = rest.map id :=
          List.map_congr_left (fun p hp => by simp [hne p hp])
        rw [h1, List.map_id]
      simp [oset, hrest]
    · simp [oget, hk] at h
      simp [oset, hk, ih ha' h]

theorem keys_oset_mem (a : List (String × J)) (k : String) (v : J)
    (h : (oget a k).isSome = true) : (oset a k v).map Prod.fst = a.map Prod.fst := by
  induction a with
  | nil => simp [oget] at h
  | cons p rest ih =>
    obtain ⟨k', w⟩ := p
    by_cases hk : k' = k
    · simp [oset, hk]
    · simp [oget, hk] at h
      simp [oset, hk, ih h]

theorem keys_oset_fresh (a : List (String × J)) (k : String) (v : J)
    (h : oget a k = none) : (oset a k v).map Prod.fst = a.map Prod.fst ++ [k] := by
  rw [oset_fresh a k v h]
  simp

theorem nodup_oset (a : List (String × J)) (k : String) (v : J)
    (ha : NodupKeys a) : NodupKeys (oset a k v) := by
  cases hg : oget a k with
  | some w =>
    unfold NodupKeys
    rw [keys_oset_mem a k v (by simp [hg])]
    exact ha
  | none =>
    unfold NodupKeys
    rw [keys_oset_fresh a k v hg]
    rw [List.nodup_append]
    refine ⟨ha, List.nodup_singleton k, ?_⟩
    intro x hx hxk
    simp at hxk
    subst hxk
    rcases List.mem_map.mp hx with ⟨p, hp, hpx⟩
    exact (oget_eq_none a x).mp hg p hp hpx

theorem oassign_cons (a : List (String × J)) (q : String × J) (rest : List (String × J)) :
    oassign a (q :: rest) = oassign (oset a q.1 q.2) rest := rfl

theorem oassign_append (a b c : List (String × J)) :
    oassign a (b ++ c) = oassign (oassign a b) c := by
  unfold oassign
  exact List.foldl_append _ _ _ _

theorem nodup_oassign (a b : List (String × J)) (ha : NodupKeys a) :
    NodupKeys (oassign a b) := by
  induction b generalizing a with
  | nil => exact ha
  | cons q rest ih => exact ih _ (nodup_oset a q.1 q.2 ha)

theorem oget_oassign (a b : List (String × J)) (k : String) (hb : NodupKeys b) :
    oget (oassign a b) k = match oget b k with | some v => some v | none => oget a k := by
  induction b generalizing a with
  | nil => rfl
  | cons q rest ih =>
    obtain ⟨k', v⟩ := q
    have hb' : NodupKeys rest := (List.nodup_cons.mp hb).2
    rw [oassign_cons]
    by_cases h : k' = k
    · subst h
      have hnone : oget rest k' = none := by
        rw [oget_eq_none]
        exact head_key_notin hb
      rw [ih _ hb']
      simp [oget, hnone, oget_oset_self]
    · rw [ih _ hb']
      have h2 : k ≠ k' := fun hc => h hc.symm
      simp only [oget, if_neg h]
      cases oget rest k with
      | some w => simp
      | none => simp [oget_oset_ne a k' k v h2]

theorem oassign_fresh (a b : List (String × J)) (hb : NodupKeys b)
    (h : ∀ p ∈ b, oget a p.1 = none) : oassign a b = a ++ b := by
  induction b generalizing a with
  | nil => simp [oassign]
  | cons q rest ih =>
    obtain ⟨k, v⟩ := q
    have hb' : NodupKeys rest := (List.nodup_cons.mp hb).2
    rw [oassign_cons]
    have h0 : oset a k v = a ++ [(k, v)] := oset_fresh a k v (h (k, v) (List.mem_cons_self _ _))
    rw [h0, ih (a ++ [(k, v)]) hb']
    · simp
    · intro p hp
      rw [oget_append]
      rw [h p (List.mem_cons_of_mem _ hp)]
      have : ¬ k = p.1 := fun hc => head_key_notin hb p hp hc.symm
      simp [oget, this]

theorem oassign_nil (b : List (String × J)) (hb : NodupKeys b) : oassign [] b = b := by
  have := oassign_fresh [] b hb (fun p _ => rfl)
  simpa using this

/-- Normal form of `Object.assign(a, b)` for well-formed objects: the
bindings of `a` in place, each overridden by `b` where `b` has the key,
followed by the bindings of `b` whose keys are fresh. -/
theorem oassign_eq (a b : List (String × J)) (ha : NodupKeys a) (hb : NodupKeys b) :
    oassign a b = a.map (fun p => (p.1, (oget b p.1).getD p.2))
      ++ b.filter (fun p => (oget a p.1).isNone) := by
  induction b generalizing a with
  | nil =>
    simp [oassign, oget]
  | cons q rest ih =>
    obtain ⟨k, v⟩ := q
    have hb' : NodupKeys rest := (List.nodup_cons.mp hb).2
    have hkrest : oget rest k = none := by
      rw [oget_eq_none]
      exact head_key_notin hb
    rw [oassign_cons]
    cases hg : oget a k with
    | some w =>
      rw [ih (oset a k v) (nodup_oset a k v ha) hb']
      have hmap : (oset a k v).map (fun p => (p.1, (oget rest p.1).getD p.2))
          = a.map (fun p => (p.1, (oget ((k, v) :: rest) p.1).getD p.2)) := by
        rw [oset_update a k v ha w hg, List.map_map]
        apply List.map_congr_left
        intro p _
        by_cases hpk : p.1 = k
        · simp [Function.comp, hpk, oget, hkrest]
        · have h2 : ¬ k = p.1 := fun hc => hpk hc.symm
          simp [Function.comp, hpk, oget, h2]
      have hfil : rest.filter (fun p => (oget (oset a k v) p.1).isNone)
          = rest.filter (fun p => (oget a p.1).isNone) := by
        apply List.filter_congr
        intro p hp
        have : p.1 ≠ k := head_key_notin hb p hp
        rw [oget_oset_ne a k p.1 v this]
      rw [hmap, hfil]
      have : (oget a k).isNone = false := by simp [hg]
      simp [List.filter_cons, this]
    | none =>
      rw [ih (oset a k v) (nodup_oset a k v ha) hb']
      rw [oset_fresh a k v hg]
      have hmap : (a ++ [(k, v)]).map (fun p => (p.1, (oget rest p.1).getD p.2))
          = a.map (fun p => (p.1, (oget ((k, v) :: rest) p.1).getD p.2)) ++ [(k, v)] := by
        rw [List.map_append]
        congr 1
        · apply List.map_congr_left
          intro p hp
          have h1 : p.1 ≠ k := fun hc => ((oget_eq_none a k).mp hg) p hp hc
          have h2 : ¬ k = p.1 := fun hc => h1 hc.symm
          simp [oget, h2]
        · simp [hkrest]
      have hfil : rest.filter (fun p => (oget (a ++ [(k, v)]) p.1).isNone)
          = rest.filter (fun p => (oget a p.1).isNone) := by
        apply List.filter_congr
        intro p hp
        have h1 : ¬ k = p.1 := fun hc => head_key_notin hb p hp hc.symm
        rw [oget_append]
        cases oget a p.1 with
        | some w => simp
        | none => simp [oget, h1]
      rw [hmap, hfil]
      have : (oget a k).isNone = true := by simp [hg]
      simp [List.filter_cons, this, List.append_assoc]

/-! ## Lemmas about stringify normalisation -/

theorem jnormFields_eq (l : List (String × J)) :
    jnormFields l = (l.filter (fun p => !p.2.isUndef)).map (fun p => (p.1, jnorm p.2)) := by
  induction l with
  | nil => rfl
  | cons p rest ih =>
    obtain ⟨k, v⟩ := p
    cases v <;> simp [jnormFields, J.isUndef, ih]

theorem jnorm_isUndef (v : J) : (jnorm v).isUndef = v.isUndef := by
  cases v <;> rfl

theorem keys_jnormFields_sub (l : List (String × J)) :
    List.Sublist ((jnormFields l).map Prod.fst) (l.map Prod.fst) := by
  rw [jnormFields_eq, List.map_map]
  have h1 : (l.filter (fun p => !p.2.isUndef)).map (Prod.fst ∘ fun p => (p.1, jnorm p.2))
      = (l.filter (fun p => !p.2.isUndef)).map Prod.fst := by
    apply List.map_congr_left
    intro p _
    rfl
  rw [h1]
  exact (List.filter_sublist l).map Prod.fst

theorem nodup_jnormFields (l : List (String × J)) (h : NodupKeys l) :
    NodupKeys (jnormFields l) :=
  (keys_jnormFields_sub l).nodup h

theorem oget_none_of_notin (l : List (String × J)) (k : String)
    (h : k ∉ l.map Prod.fst) : oget l k = none := by
  rw [oget_eq_none]
  intro p hp hc
  exact h (hc ▸ key_mem_keys hp)

theorem oget_jnormFields (l : List (String × J)) (k : String) (hl : NodupKeys l) :
    oget (jnormFields l) k =
      match oget l k with
      | none => none
      | some v => if v.isUndef then none else some (jnorm v) := by
  induction l with
  | nil => rfl
  | cons p rest ih =>
    obtain ⟨k', v⟩ := p
    have hl' : NodupKeys rest := (List.nodup_cons.mp hl).2
    by_cases hk : k' = k
    · subst hk
      have hnotin : k' ∉ rest.map Prod.fst := (List.nodup_cons.mp hl).1
      have hrest : oget (jnormFields rest) k' = none :=
        oget_none_of_notin _ _ (fun hc => hnotin ((keys_jnormFields_sub rest).mem hc))
      cases v <;> simp [jnormFields, oget, J.isUndef, hrest]
    · cases v <;> simp [jnormFields, oget, hk, ih hl']

mutual

theorem jnorm_idem : ∀ v : J, jnorm (jnorm v) = jnorm v
  | .undef => rfl
  | .null => rfl
  | .bool _ => rfl
  | .num _ => rfl
  | .str _ => rfl
  | .arr xs => by rw [jnorm, jnorm, jnormArr_idem xs]
  | .obj fs => by rw [jnorm, jnorm, jnormFields_idem fs]

theorem jnormFields_idem : ∀ l : List (String × J), jnormFields (jnormFields l) = jnormFields l
  | [] => rfl
  | (k, v) :: rest => by
    cases v with
    | undef => rw [show jnormFields ((k, J.undef) :: rest) = jnormFields rest from rfl,
        jnormFields_idem rest]
    | null => simp [jnormFields, jnorm, jnormFields_idem rest]
    | bool b => simp [jnormFields, jnorm, jnormFields_idem rest]
    | num n => simp [jnormFields, jnorm, jnormFields_idem rest]
    | str s => simp [jnormFields, jnorm, jnormFields_idem rest]
    | arr xs => simp [jnormFields, jnorm, jnormFields_idem rest, jnormArr_idem xs]
    | obj fs => simp [jnormFields, jnorm, jnormFields_idem rest, jnormFields_idem fs]

theorem jnormArr_idem : ∀ l : List J, jnormArr (jnormArr l) = jnormArr l
  | [] => rfl
  | v :: rest => by
    cases v with
    | undef => simp [jnormArr, jnorm, jnormArr_idem rest]
    | null => simp [jnormArr, jnorm, jnormArr_idem rest]
    | bool b => simp [jnormArr, jnorm, jnormArr_idem rest]
    | num n => simp [jnormArr, jnorm, jnormArr_idem rest]
    | str s => simp [jnormArr, jnorm, jnormArr_idem rest]
    | arr xs => simp [jnormArr, jnorm, jnormArr_idem rest, jnormArr_idem xs]
    | obj fs => simp [jnormArr, jnorm, jnormArr_idem rest, jnormFields_idem fs]

end

theorem jnormFields_no_undef (l : List (String × J))
    (hu : ∀ p ∈ l, p.2.isUndef = false) :
    jnormFields l = l.map (fun p => (p.1, jnorm p.2)) := by
  rw [jnormFields_eq]
  congr 1
  apply List.filter_eq_self.mpr
  intro p hp
  simp [hu p hp]

/-! ## Lemmas about the manifest merge -/

theorem nodup_keys_nil : NodupKeys [] := by simp [NodupKeys]

theorem mergeOpts_bake (tj dj : J) : oget (mergeOpts tj dj) "bake" = some J.undef := by
  unfold mergeOpts
  by_cases h1 : truthy ((oget (ownFields tj) "devDependencies").getD J.undef) <;>
    by_cases h2 : truthy ((oget (ownFields tj) "dependencies").getD J.undef) <;>
      simp [h1, h2, oset, oget]

theorem mergeOpts_nodup (tj dj : J) : NodupKeys (mergeOpts tj dj) := by
  unfold mergeOpts
  by_cases h1 : truthy ((oget (ownFields tj) "devDependencies").getD J.undef) <;>
    by_cases h2 : truthy ((oget (ownFields tj) "dependencies").getD J.undef) <;>
      simp [h1, h2, oset, NodupKeys]

theorem mergeResultFields_nodup (tj dj : J) : NodupKeys (mergeResultFields tj dj) :=
  nodup_oassign _ _ (nodup_oassign _ _ (nodup_oassign _ _ nodup_keys_nil))

theorem mergeJSONContent_fields (tj dj : J) :
    ownFields (mergeJSONContent tj dj) = jnormFields (mergeResultFields tj dj) := rfl

/-- The merged output never carries a `bake` key: `opts` maps it to
`undefined` last, and stringification drops it. -/
theorem mergeJSONContent_no_bake (tj dj : J) :
    oget (ownFields (mergeJSONContent tj dj)) "bake" = none := by
  rw [mergeJSONContent_fields]
  rw [oget_jnormFields _ _ (mergeResultFields_nodup tj dj)]
  unfold mergeResultFields
  rw [oget_oassign _ _ _ (mergeOpts_nodup tj dj)]
  rw [mergeOpts_bake]
  rfl

theorem oset_val_mem (P : J → Prop) (a : List (String × J)) (k : String) (v : J)
    (hPa : ∀ p ∈ a, P p.2) (hPv : P v) : ∀ p ∈ oset a k v, P p.2 := by
  induction a with
  | nil =>
    intro p hp
    simp [oset] at hp
    simp [hp, hPv]
  | cons q rest ih =>
    obtain ⟨k', w⟩ := q
    intro p hp
    by_cases hk : k' = k
    · simp [oset, hk] at hp
      rcases hp with h | h
      · simp [h, hPv]
      · exact hPa p (List.mem_cons_of_mem _ h)
    · simp only [oset, if_neg hk] at hp
      rcases List.mem_cons.mp hp with h | h
      · exact h ▸ hPa _ (List.mem_cons_self _ _)
      · exact ih (fun q hq => hPa q (List.mem_cons_of_mem _ hq)) p h

theorem oassign_val_mem (P : J → Prop) (a b : List (String × J))
    (hPa : ∀ p ∈ a, P p.2) (hPb : ∀ p ∈ b, P p.2) : ∀ p ∈ oassign a b, P p.2 := by
  induction b generalizing a with
  | nil => exact hPa
  | cons q rest ih =>
    rw [oassign_cons]
    exact ih (oset a q.1 q.2) (oset_val_mem P a q.1 q.2 hPa (hPb q (List.mem_cons_self _ _)))
      (fun p hp => hPb p (List.mem_cons_of_mem _ hp))

/-- On a dependency map whose values are version strings,
stringification is the identity. -/
theorem jnormFields_of_str (l : List (String × J))
    (h : ∀ p ∈ l, ∃ s, p.2 = J.str s) : jnormFields l = l := by
  induction l with
  | nil => rfl
  | cons p rest ih =>
    obtain ⟨k, v⟩ := p
    obtain ⟨s, hs⟩ := h (k, v) (List.mem_cons_self _ _)
    simp at hs
    subst hs
    rw [show jnormFields ((k, J.str s) :: rest) = (k, jnorm (J.str s)) :: jnormFields rest from rfl]
    rw [show jnorm (J.str s) = J.str s from rfl]
    rw [ih (fun q hq => h q (List.mem_cons_of_mem _ hq))]

/-! ## Lemmas about paths and discovery -/

theorem foldl_append_init {α : Type} (l : List (List α)) (init : List α) :
    l.foldl (· ++ ·) init = init ++ l.flatten := by
  induction l generalizing init with
  | nil => simp
  | cons x rest ih => simp [ih, List.flatten]

theorem takeWhile_append_of_all {α : Type} (p : α → Bool) (xs ys : List α)
    (h : ∀ x ∈ xs, p x = true) : (xs ++ ys).takeWhile p = xs ++ ys.takeWhile p := by
  induction xs with
  | nil => simp
  | cons x rest ih =>
    simp [List.takeWhile_cons, h x (List.mem_cons_self _ _),
      ih (fun y hy => h y (List.mem_cons_of_mem _ hy))]

theorem dropWhile_append_keep {α : Type} (p : α → Bool) (xs ys : List α)
    (hne : xs ≠ []) (h : ∀ x ∈ xs, p x = false) : (xs ++ ys).dropWhile p = xs ++ ys := by
  cases xs with
  | nil => exact absurd rfl hne
  | cons x rest => simp [List.dropWhile_cons, h x (List.mem_cons_self _ _)]

/-- Joining a directory with a slash-free, nonempty readdir entry and
taking the basename recovers the entry. -/
theorem basename_append (d s : String) (hne : s ≠ "") (hs : ∀ c ∈ s.toList, c ≠ '/') :
    basename (d ++ "/" ++ s) = s := by
  have hLne : s.toList.reverse ≠ [] := by
    intro hc
    apply hne
    have h2 : s.toList = [] := by simpa using congrArg List.reverse hc
    have h3 := congrArg String.mk h2
    simpa using h3
  unfold basename
  have hdata : (d ++ "/" ++ s).toList = d.toList ++ '/' :: s.toList := by
    simp [String.toList]
  rw [hdata]
  have hrev : (d.toList ++ '/' :: s.toList).reverse
      = s.toList.reverse ++ ('/' :: d.toList.reverse) := by
    simp
  rw [hrev]
  rw [dropWhile_append_keep _ _ _ hLne
    (fun c hc => by simp [hs c (List.mem_reverse.mp hc)])]
  rw [takeWhile_append_of_all _ _ _
    (fun c hc => by simp [hs c (List.mem_reverse.mp hc)])]
  simp [List.takeWhile_cons]

/-- Within one search root, the first discovered template whose name
matches is the one built from the matching subdirectory. -/
theorem find_template_in_root (env : DiscoverEnv) (r name : String)
    (L : List String) (hent : ∀ e ∈ L, e ≠ "" ∧ ∀ c ∈ e.toList, c ≠ '/')
    (hsub : name ∈ L) (hdir : env.isDir (r ++ "/" ++ name) = true) :
    (((L.map (fun e => r ++ "/" ++ e)).filter env.isDir).map
        (fun dir => (⟨dir, basename dir,
          (env.manifestAt (dir ++ "/package.json")).getD (J.obj [])⟩ : TemplateEntry))).find?
      (fun t => t.name == name)
      = some ⟨r ++ "/" ++ name, name,
          (env.manifestAt (r ++ "/" ++ name ++ "/package.json")).getD (J.obj [])⟩ := by
  induction L with
  | nil => simp at hsub
  | cons e rest ih =>
    obtain ⟨hene, hesl⟩ := hent e (List.mem_cons_self _ _)
    have hent' : ∀ x ∈ rest, x ≠ "" ∧ ∀ c ∈ x.toList, c ≠ '/' :=
      fun x hx => hent x (List.mem_cons_of_mem _ hx)
    by_cases he : e = name
    · subst he
      simp [List.filter_cons, hdir, List.find?_cons, basename_append r e hene hesl]
    · have hsub' : name ∈ rest := by
        rcases List.mem_cons.mp hsub with h | h
        · exact absurd h.symm he
        · exact h
      by_cases hd : env.isDir (r ++ "/" ++ e) = true
      · rw [show ((e :: rest).map (fun x => r ++ "/" ++ x)) =
            (r ++ "/" ++ e) :: rest.map (fun x => r ++ "/" ++ x) from rfl]
        rw [List.filter_cons, if_pos (by simpa using hd)]
        rw [List.map_cons, List.find?_cons]
        have hb : basename (r ++ "/" ++ e) = e := basename_append r e hene hesl
        have : (((⟨r ++ "/" ++ e, basename (r ++ "/" ++ e),
            (env.manifestAt (r ++ "/" ++ e ++ "/package.json")).getD (J.obj [])⟩ :
              TemplateEntry)).name == name) = false := by
          simp [hb, he]
        rw [this]
        exact ih hent' hsub'
      · rw [show ((e :: rest).map (fun x => r ++ "/" ++ x)) =
            (r ++ "/" ++ e) :: rest.map (fun x => r ++ "/" ++ x) from rfl]
        rw [List.filter_cons, if_neg (by simpa using hd)]
        exact ih hent' hsub'

/-! ## Lemmas about run traces -/

/-- Positional separation: if no event of `a` satisfies `q` and no event
of `b` satisfies `p`, then in `a ++ b` every `p`-event precedes every
`q`-event. -/
theorem sep_lt (p q : Ev → Bool) (a b : List Ev)
    (ha : ∀ e ∈ a, q e = false) (hb : ∀ e ∈ b, p e = false) :
    ∀ i j (hi : i < (a ++ b).length) (hj : j < (a ++ b).length),
      p ((a ++ b).get ⟨i, hi⟩) = true → q ((a ++ b).get ⟨j, hj⟩) = true → i < j := by
  intro i j hi hj hp hq
  have hlen : (a ++ b).length = a.length + b.length := by simp
  have hia : i < a.length := by
    by_contra hc
    push_neg at hc
    have hib : i - a.length < b.length := by omega
    have hmem : (a ++ b).get ⟨i, hi⟩ ∈ b := by
      rw [List.get_eq_getElem, List.getElem_append_right hc]
      exact List.getElem_mem hib
    rw [hb _ hmem] at hp
    simp at hp
  have hja : a.length ≤ j := by
    by_contra hc
    push_neg at hc
    have hmem : (a ++ b).get ⟨j, hj⟩ ∈ a := by
      rw [List.get_eq_getElem, List.getElem_append_left hc]
      exact List.getElem_mem hc
    rw [ha _ hmem] at hq
    simp at hq
  omega

theorem script_events (execOk : J → Bool) (scr : List (String × J)) (m : String) :
    ∀ e ∈ (script execOk scr m).1, ∃ s, e = Ev.spawn m s := by
  intro e he
  unfold script at he
  by_cases h : truthy ((oget scr m).getD J.undef)
  · simp [h] at he
    exact ⟨_, he⟩
  · simp [h] at he

theorem invoke_events (execOk : J → Bool) (scr : List (String × J)) (n : String) :
    ∀ e ∈ (invoke execOk scr n).1,
      ∃ m s, e = Ev.spawn m s ∧ (m = "pre" ++ n ∨ m = n ∨ m = "post" ++ n) := by
  intro e he
  unfold invoke at he
  by_cases h1 : (script execOk scr ("pre" ++ n)).2 = true
  · rw [if_pos h1] at he
    by_cases h2 : (script execOk scr n).2 = true
    · rw [if_pos h2] at he
      rcases List.mem_append.mp he with h | h
      · rcases List.mem_append.mp h with h | h
        · obtain ⟨s, hs⟩ := script_events execOk scr ("pre" ++ n) e h
          exact ⟨_, s, hs, Or.inl rfl⟩
        · obtain ⟨s, hs⟩ := script_events execOk scr n e h
          exact ⟨_, s, hs, Or.inr (Or.inl rfl)⟩
      · obtain ⟨s, hs⟩ := script_events execOk scr ("post" ++ n) e h
        exact ⟨_, s, hs, Or.inr (Or.inr rfl)⟩
    · rw [if_neg h2] at he
      rcases List.mem_append.mp he with h | h
      · obtain ⟨s, hs⟩ := script_events execOk scr ("pre" ++ n) e h
        exact ⟨_, s, hs, Or.inl rfl⟩
      · obtain ⟨s, hs⟩ := script_events execOk scr n e h
        exact ⟨_, s, hs, Or.inr (Or.inl rfl)⟩
  · rw [if_neg h1] at he
    obtain ⟨s, hs⟩ := script_events execOk scr ("pre" ++ n) e he
    exact ⟨_, s, hs, Or.inl rfl⟩

theorem templateOp_events (ok : Bool) (fs : Fs) (cwd f : String) :
    ∀ e ∈ (templateOp ok fs cwd f).2.1, isOpEvent e = true := by
  intro e he
  unfold templateOp json stream at he
  by_cases hb : basename f = "package.json"
  · rw [if_pos hb] at he
    cases hg : oget fs (cwd ++ "/" ++ basename f) with
    | some d =>
      rw [hg] at he
      simp at he
      simp [he, isOpEvent]
    | none =>
      rw [hg] at he
      simp at he
  · rw [if_neg hb] at he
    by_cases hg : (oget fs (cwd ++ "/" ++ basename f)).isSome = true
    · rw [if_pos hg] at he
      simp at he
      simp [he, isOpEvent]
    · rw [if_neg hg] at he
      simp at he

theorem launchOps_fold_events (env : RunEnv) (cwd : String) :
    ∀ (files : List String) (fs : Fs) (acc : List Ev),
      (∀ e ∈ acc, isOpEvent e = true) →
      ∀ e ∈ (files.foldl (launchStep env cwd) (fs, acc)).2, isOpEvent e = true := by
  intro files
  induction files with
  | nil => intro fs acc hacc e he; exact hacc e he
  | cons f rest ih =>
    intro fs acc hacc e he
    rw [List.foldl_cons] at he
    refine ih _ _ ?_ e he
    intro x hx
    rcases List.mem_append.mp hx with h | h
    · exact hacc x h
    · rcases List.mem_cons.mp h with h | h
      · simp [h, isOpEvent]
      · exact templateOp_events (env.opOk f) fs cwd f x h

theorem launchOps_events (env : RunEnv) (cwd : String) (files : List String) (fs : Fs) :
    ∀ e ∈ (launchOps env cwd files fs).2, isOpEvent e = true :=
  launchOps_fold_events env cwd files fs [] (by intro e he; simp at he)

theorem expand_events (env : RunEnv) (cwd : String) (fs : Fs) (t : TemplateEntry) :
    ∀ e ∈ (expandTemplateDirectory env cwd fs t).2.2, isOpEvent e = true := by
  intro e he
  unfold expandTemplateDirectory at he
  by_cases hd : env.dirExists t.dir = true
  · rw [if_pos hd] at he
    exact launchOps_events env cwd _ fs e he
  · rw [if_neg hd] at he
    simp at he

theorem settleTrace_events (opOk : String → Bool) :
    ∀ l : List String, ∀ e ∈ settleTrace opOk l, ∃ f o, e = Ev.opDone f o := by
  intro l
  induction l with
  | nil => intro e he; simp [settleTrace] at he
  | cons f rest ih =>
    intro e he
    unfold settleTrace at he
    rcases List.mem_cons.mp he with h | h
    · exact ⟨f, opOk f, h⟩
    · by_cases ho : opOk f = true
      · rw [if_pos ho] at h
        exact ih e h
      · rw [if_neg ho] at h
        simp at h

theorem settleTrace_all_ok (opOk : String → Bool) :
    ∀ l : List String, l.all opOk = true →
      settleTrace opOk l = l.map (fun f => Ev.opDone f true) := by
  intro l
  induction l with
  | nil => intro _; rfl
  | cons f rest ih =>
    intro hall
    simp at hall
    unfold settleTrace
    rw [if_pos hall.1, hall.1, ih (List.all_eq_true.mpr hall.2)]
    rfl

theorem isOpEvent_not_hook {e : Ev} (h : isOpEvent e = true) :
    isStartHook e = false ∧ isInstallHook e = false ∧ isFailEv e = false := by
  cases e <;> simp [isOpEvent, isStartHook, isInstallHook, isFailEv] at h ⊢

theorem start_events_classify (execOk : J → Bool) (scr : List (String × J)) :
    ∀ e ∈ (invoke execOk scr "start").1,
      isOpEvent e = false ∧ isInstallHook e = false ∧ isFailEv e = false := by
  intro e he
  obtain ⟨m, s, hs, hm⟩ := invoke_events execOk scr "start" e he
  subst hs
  rcases hm with h | h | h <;> subst h <;>
    exact ⟨rfl, by simp [isInstallHook], rfl⟩

theorem install_events_classify (execOk : J → Bool) (scr : List (String × J)) :
    ∀ e ∈ (invoke execOk scr "install").1,
      isOpEvent e = false ∧ isStartHook e = false ∧ isFailEv e = false := by
  intro e he
  obtain ⟨m, s, hs, hm⟩ := invoke_events execOk scr "install" e he
  subst hs
  rcases hm with h | h | h <;> subst h <;>
    exact ⟨rfl, by simp [isStartHook], rfl⟩

theorem settle_events_classify (opOk : String → Bool) (l : List String) :
    ∀ e ∈ settleTrace opOk l,
      isStartHook e = false ∧ isInstallHook e = false ∧ isFailEv e = false := by
  intro e he
  obtain ⟨f, o, hf⟩ := settleTrace_events opOk l e he
  subst hf
  exact ⟨rfl, rfl, rfl⟩

theorem countFail_append (a b : List Ev) : countFail (a ++ b) = countFail a + countFail b :=
  List.countP_append isFailEv a b

theorem countFail_zero_of (l : List Ev) (h : ∀ e ∈ l, isFailEv e = false) :
    countFail l = 0 :=
  List.countP_eq_zero.mpr (fun e he => by simp [h e he])

theorem forall_mem_append_ev {p : Ev → Bool} {a b : List Ev}
    (ha : ∀ e ∈ a, p e = false) (hb : ∀ e ∈ b, p e = false) :
    ∀ e ∈ a ++ b, p e = false := by
  intro e he
  rcases List.mem_append.mp he with h | h
  · exact ha e h
  · exact hb e h

/-! ## Lemmas for the idempotence of the manifest merge -/

theorem jnormFields_append (a b : List (String × J)) :
    jnormFields (a ++ b) = jnormFields a ++ jnormFields b := by
  rw [jnormFields_eq, jnormFields_eq, jnormFields_eq, List.filter_append, List.map_append]

theorem jnormFields_values (l : List (String × J)) :
    ∀ p ∈ jnormFields l, p.2.isUndef = false := by
  intro p hp
  rw [jnormFields_eq] at hp
  rcases List.mem_map.mp hp with ⟨q, hq, hqe⟩
  have hqv : q.2.isUndef = false := by
    have := (List.mem_filter.mp hq).2
    simpa using this
  rw [← hqe]
  simp [jnorm_isUndef, hqv]

theorem jnormFields_eq_nil (l : List (String × J)) (h : ∀ p ∈ l, p.2.isUndef = true) :
    jnormFields l = [] := by
  rw [jnormFields_eq]
  have hf : l.filter (fun p => !p.2.isUndef) = [] := by
    rw [List.filter_eq_nil_iff]
    intro p hp
    simp [h p hp]
  rw [hf]
  rfl

theorem oget_map_jnorm (l : List (String × J)) (k : String) :
    oget (l.map (fun p => (p.1, jnorm p.2))) k = (oget l k).map jnorm := by
  induction l with
  | nil => rfl
  | cons p rest ih =>
    obtain ⟨k', v⟩ := p
    by_cases h : k' = k <;> simp [oget, h, ih]

theorem keys_map_val (l : List (String × J)) (f : String × J → J) :
    (l.map (fun p => (p.1, f p))).map Prod.fst = l.map Prod.fst := by
  rw [List.map_map]
  apply List.map_congr_left
  intro p _
  rfl

theorem truthy_getD_isSome {o : Option J} (h : truthy (o.getD J.undef) = true) :
    o.isSome = true := by
  cases o with
  | none => simp [truthy] at h
  | some v => rfl

theorem oget_oassign_left_isSome (a b : List (String × J)) (k : String) (hb : NodupKeys b)
    (h : (oget a k).isSome = true) : (oget (oassign a b) k).isSome = true := by
  rw [oget_oassign _ _ _ hb]
  cases hg : oget b k with
  | some v => rfl
  | none => simpa using h

theorem mergeOpts_devDeps_some (tj dj : J)
    (hc : truthy ((oget (ownFields tj) "devDependencies").getD J.undef) = true) :
    oget (mergeOpts tj dj) "devDependencies"
      = some (J.obj (oassign (oassign [] (ownFieldsOpt (oget (ownFields tj) "devDependencies")))
          (ownFieldsOpt (oget (ownFields dj) "devDependencies")))) := by
  unfold mergeOpts
  by_cases h2 : truthy ((oget (ownFields tj) "dependencies").getD J.undef) <;>
    simp [hc, h2, oset, oget]

theorem mergeOpts_devDeps_none (tj dj : J)
    (hc : truthy ((oget (ownFields tj) "devDependencies").getD J.undef) = false) :
    oget (mergeOpts tj dj) "devDependencies" = none := by
  unfold mergeOpts
  by_cases h2 : truthy ((oget (ownFields tj) "dependencies").getD J.undef) <;>
    simp [hc, h2, oset, oget]

theorem mergeOpts_deps_some (tj dj : J)
    (hc : truthy ((oget (ownFields tj) "dependencies").getD J.undef) = true) :
    oget (mergeOpts tj dj) "dependencies"
      = some (J.obj (oassign (oassign [] (ownFieldsOpt (oget (ownFields tj) "dependencies")))
          (ownFieldsOpt (oget (ownFields dj) "dependencies")))) := by
  unfold mergeOpts
  by_cases h1 : truthy ((oget (ownFields tj) "devDependencies").getD J.undef) <;>
    simp [hc, h1, oset, oget]

theorem mergeOpts_deps_none (tj dj : J)
    (hc : truthy ((oget (ownFields tj) "dependencies").getD J.undef) = false) :
    oget (mergeOpts tj dj) "dependencies" = none := by
  unfold mergeOpts
  by_cases h1 : truthy ((oget (ownFields tj) "devDependencies").getD J.undef) <;>
    simp [hc, h1, oset, oget]

theorem mergeOpts_other (tj dj : J) (k : String) (h1 : ¬ "bake" = k)
    (h2 : ¬ "devDependencies" = k) (h3 : ¬ "dependencies" = k) :
    oget (mergeOpts tj dj) k = none := by
  unfold mergeOpts
  by_cases c1 : truthy ((oget (ownFields tj) "devDependencies").getD J.undef) <;>
    by_cases c2 : truthy ((oget (ownFields tj) "dependencies").getD J.undef) <;>
      simp [c1, c2, oset, oget, h1, h2, h3]

theorem mergeOpts_mem (tj dj : J) :
    ∀ p ∈ mergeOpts tj dj, p = ("bake", J.undef)
      ∨ (p.1 = "devDependencies" ∧ p.2.isUndef = false
          ∧ truthy ((oget (ownFields tj) "devDependencies").getD J.undef) = true)
      ∨ (p.1 = "dependencies" ∧ p.2.isUndef = false
          ∧ truthy ((oget (ownFields tj) "dependencies").getD J.undef) = true) := by
  intro p hp
  unfold mergeOpts at hp
  by_cases c1 : truthy ((oget (ownFields tj) "devDependencies").getD J.undef) <;>
    by_cases c2 : truthy ((oget (ownFields tj) "dependencies").getD J.undef) <;>
      simp [c1, c2, oset] at hp
  · rcases hp with h | h | h
    · exact Or.inl (by simp [h])
    · exact Or.inr (Or.inl (by simp [h, J.isUndef, c1]))
    · exact Or.inr (Or.inr (by simp [h, J.isUndef, c2]))
  · rcases hp with h | h
    · exact Or.inl (by simp [h])
    · exact Or.inr (Or.inl (by simp [h, J.isUndef, c1]))
  · rcases hp with h | h
    · exact Or.inl (by simp [h])
    · exact Or.inr (Or.inr (by simp [h, J.isUndef, c2]))
  · exact Or.inl (by simp [hp])

/-- Normalising an already-normalised (undefined-free source) field list
is the identity. -/
theorem jnormFields_map_jnorm (l : List (String × J)) (hu : ∀ p ∈ l, p.2.isUndef = false) :
    jnormFields (l.map (fun p => (p.1, jnorm p.2))) = l.map (fun p => (p.1, jnorm p.2)) := by
  rw [jnormFields_no_undef]
  · rw [List.map_map]
    apply List.map_congr_left
    intro p hp
    simp [Function.comp, jnorm_idem]
  · intro p hp
    rcases List.mem_map.mp hp with ⟨q, hq, hqe⟩
    rw [← hqe]
    simp [jnorm_isUndef, hu q hq]

/-- Re-assigning `a` onto the stringified result of `assign(a, b)` and
stringifying again changes nothing: the dependency-map level of the merge
is idempotent. -/
theorem dep_merge_idem (a b : List (String × J))
    (ha : NodupKeys a) (hb : NodupKeys b)
    (hau : ∀ p ∈ a, p.2.isUndef = false) (hbu : ∀ p ∈ b, p.2.isUndef = false) :
    jnormFields (oassign a (jnormFields (oassign a b))) = jnormFields (oassign a b) := by
  have hYn : NodupKeys (oassign a b) := nodup_oassign a b ha
  have hYu : ∀ p ∈ oassign a b, p.2.isUndef = false :=
    oassign_val_mem (fun x => x.isUndef = false) a b hau hbu
  have hZ : jnormFields (oassign a b) = (oassign a b).map (fun p => (p.1, jnorm p.2)) :=
    jnormFields_no_undef _ hYu
  have hNFY : oassign a b = a.map (fun p => (p.1, (oget b p.1).getD p.2))
      ++ b.filter (fun p => (oget a p.1).isNone) := oassign_eq a b ha hb
  have hZn : NodupKeys (jnormFields (oassign a b)) := nodup_jnormFields _ hYn
  have hsubA : ∀ p ∈ a.map (fun p => (p.1, (oget b p.1).getD p.2)), p.2.isUndef = false := by
    intro p hp
    rcases List.mem_map.mp hp with ⟨q, hq, hqe⟩
    rw [← hqe]
    cases hg : oget b q.1 with
    | some v =>
      have := hbu _ (oget_some_mem hg)
      simpa [hg] using this
    | none => simpa [hg] using hau q hq
  have hsubB : ∀ p ∈ b.filter (fun q => (oget a q.1).isNone), p.2.isUndef = false :=
    fun p hp => hbu p (List.mem_filter.mp hp).1
  -- the a-part of the outer assignment picks up the already-normalised values
  have hA : a.map (fun p => (p.1, (oget (jnormFields (oassign a b)) p.1).getD p.2))
      = (a.map (fun p => (p.1, (oget b p.1).getD p.2))).map (fun p => (p.1, jnorm p.2)) := by
    rw [List.map_map]
    apply List.map_congr_left
    intro p hp
    rw [hZ, oget_map_jnorm, oget_oassign a b p.1 hb]
    cases hg : oget b p.1 with
    | some v => simp [Function.comp, hg]
    | none => simp [Function.comp, hg, oget_mem_some ha hp]
  -- the fresh part of the outer assignment is the normalised fresh part of b
  have hfil : (oassign a b).filter (fun q => (oget a q.1).isNone)
      = b.filter (fun q => (oget a q.1).isNone) := by
    rw [hNFY, List.filter_append]
    have h1 : (a.map (fun p => (p.1, (oget b p.1).getD p.2))).filter
        (fun q => (oget a q.1).isNone) = [] := by
      rw [List.filter_eq_nil_iff]
      intro q hq
      rcases List.mem_map.mp hq with ⟨r, hr, hre⟩
      rw [← hre]
      have := oget_isSome_of_mem hr
      cases hg2 : oget a r.1 with
      | none =>
        rw [hg2] at this
        simp at this
      | some w => simp [hg2]
    have h2 : (b.filter (fun q => (oget a q.1).isNone)).filter
        (fun q => (oget a q.1).isNone) = b.filter (fun q => (oget a q.1).isNone) := by
      rw [List.filter_filter]
      apply List.filter_congr
      intro p _
      simp [Bool.and_self]
    rw [h1, h2]
    simp
  have hB : (jnormFields (oassign a b)).filter (fun q => (oget a q.1).isNone)
      = (b.filter (fun q => (oget a q.1).isNone)).map (fun p => (p.1, jnorm p.2)) := by
    rw [hZ, List.filter_map]
    have hco : (oassign a b).filter
        ((fun q => (oget a q.1).isNone) ∘ (fun p => (p.1, jnorm p.2)))
        = (oassign a b).filter (fun q => (oget a q.1).isNone) := by
      apply List.filter_congr
      intro p _
      rfl
    rw [hco, hfil]
  rw [oassign_eq a (jnormFields (oassign a b)) ha hZn, hA, hB, jnormFields_append,
    jnormFields_map_jnorm _ hsubA, jnormFields_map_jnorm _ hsubB, hZ, hNFY, List.map_append]

/-- Structure of one manifest merge: the written field list is the
assignment `assign(T, E)` with the `bake` binding removed and every value
overridden by `opts` where `opts` has the key, then normalised. -/
theorem merge_char (T E : List (String × J))
    (hTn : NodupKeys T) (hEn : NodupKeys E)
    (hTu : ∀ p ∈ T, p.2.isUndef = false) (hEu : ∀ p ∈ E, p.2.isUndef = false) :
    jnormFields (mergeResultFields (J.obj T) (J.obj E))
      = ((oassign T E).filter (fun q => !decide (q.1 = "bake"))).map
          (fun q => (q.1, jnorm ((oget (mergeOpts (J.obj T) (J.obj E)) q.1).getD q.2))) := by
  have hXn : NodupKeys (oassign T E) := nodup_oassign T E hTn
  have hXu : ∀ p ∈ oassign T E, p.2.isUndef = false :=
    oassign_val_mem (fun x => x.isUndef = false) T E hTu hEu
  have hOn : NodupKeys (mergeOpts (J.obj T) (J.obj E)) := mergeOpts_nodup _ _
  have hMR : mergeResultFields (J.obj T) (J.obj E)
      = (oassign T E).map
          (fun p => (p.1, (oget (mergeOpts (J.obj T) (J.obj E)) p.1).getD p.2))
        ++ (mergeOpts (J.obj T) (J.obj E)).filter
            (fun p => (oget (oassign T E) p.1).isNone) := by
    show oassign (oassign (oassign [] T) E) (mergeOpts (J.obj T) (J.obj E)) = _
    rw [oassign_nil T hTn]
    exact oassign_eq (oassign T E) _ hXn hOn
  have hrest : jnormFields ((mergeOpts (J.obj T) (J.obj E)).filter
      (fun p => (oget (oassign T E) p.1).isNone)) = [] := by
    apply jnormFields_eq_nil
    intro p hp
    have hpm := (List.mem_filter.mp hp).1
    have hpf := (List.mem_filter.mp hp).2
    rcases mergeOpts_mem (J.obj T) (J.obj E) p hpm with h | h | h
    · simp [h, J.isUndef]
    · exfalso
      have hsome : (oget T "devDependencies").isSome = true := by
        have := truthy_getD_isSome h.2.2
        simpa [ownFields] using this
      have hx : (oget (oassign T E) "devDependencies").isSome = true :=
        oget_oassign_left_isSome T E _ hEn hsome
      rw [h.1] at hpf
      cases hg : oget (oassign T E) "devDependencies" with
      | some w =>
        rw [hg] at hpf
        simp at hpf
      | none =>
        rw [hg] at hx
        simp at hx
    · exfalso
      have hsome : (oget T "dependencies").isSome = true := by
        have := truthy_getD_isSome h.2.2
        simpa [ownFields] using this
      have hx : (oget (oassign T E) "dependencies").isSome = true :=
        oget_oassign_left_isSome T E _ hEn hsome
      rw [h.1] at hpf
      cases hg : oget (oassign T E) "dependencies" with
      | some w =>
        rw [hg] at hpf
        simp at hpf
      | none =>
        rw [hg] at hx
        simp at hx
  have hmain : jnormFields ((oassign T E).map
      (fun p => (p.1, (oget (mergeOpts (J.obj T) (J.obj E)) p.1).getD p.2)))
      = ((oassign T E).filter (fun q => !decide (q.1 = "bake"))).map
          (fun q => (q.1, jnorm ((oget (mergeOpts (J.obj T) (J.obj E)) q.1).getD q.2))) := by
    rw [jnormFields_eq, List.filter_map]
    have hpred : (oassign T E).filter
        ((fun p => !p.2.isUndef)
          ∘ (fun p => (p.1, (oget (mergeOpts (J.obj T) (J.obj E)) p.1).getD p.2)))
        = (oassign T E).filter (fun q => !decide (q.1 = "bake")) := by
      apply List.filter_congr
      intro q hq
      show (!((oget (mergeOpts (J.obj T) (J.obj E)) q.1).getD q.2).isUndef)
          = (!decide (q.1 = "bake"))
      by_cases hk : q.1 = "bake"
      · rw [hk, mergeOpts_bake]
        simp [hk, J.isUndef]
      · have hval : ((oget (mergeOpts (J.obj T) (J.obj E)) q.1).getD q.2).isUndef = false := by
          cases hg : oget (mergeOpts (J.obj T) (J.obj E)) q.1 with
          | none => simpa using hXu q hq
          | some v =>
            rcases mergeOpts_mem (J.obj T) (J.obj E) (q.1, v) (oget_some_mem hg) with h | h | h
            · exact absurd (congrArg Prod.fst h) hk
            · simpa using h.2.1
            · simpa using h.2.1
        simp [hval, hk]
    rw [hpred, List.map_map]
    rfl
  rw [hMR, jnormFields_append, hrest, hmain]
  simp

/-- Lookup in one merged manifest: `opts` wins, then `E`, then `T`,
values normalised and `undefined` dropped. -/
theorem merge_get (T E : List (String × J))
    (hTn : NodupKeys T) (hEn : NodupKeys E) (k : String) :
    oget (jnormFields (mergeResultFields (J.obj T) (J.obj E))) k
      = match oget (mergeOpts (J.obj T) (J.obj E)) k with
        | some v => if v.isUndef then none else some (jnorm v)
        | none => match oget E k with
          | some v => if v.isUndef then none else some (jnorm v)
          | none => match oget T k with
            | some v => if v.isUndef then none else some (jnorm v)
            | none => none := by
  rw [oget_jnormFields _ _ (mergeResultFields_nodup _ _)]
  have hMR : oget (mergeResultFields (J.obj T) (J.obj E)) k
      = match oget (mergeOpts (J.obj T) (J.obj E)) k with
        | some v => some v
        | none => match oget E k with
          | some v => some v
          | none => oget T k := by
    show oget (oassign (oassign (oassign [] T) E) (mergeOpts (J.obj T) (J.obj E))) k = _
    rw [oget_oassign _ _ _ (mergeOpts_nodup _ _), oget_oassign _ _ _ hEn, oassign_nil T hTn]
  rw [hMR]
  cases oget (mergeOpts (J.obj T) (J.obj E)) k <;> cases oget E k <;> cases oget T k <;> rfl

theorem depok_fields (o : Option J) (h : DepOk o) :
    NodupKeys (ownFieldsOpt o) ∧ ∀ p ∈ ownFieldsOpt o, p.2.isUndef = false := by
  cases o with
  | none =>
    refine ⟨nodup_keys_nil, ?_⟩
    intro p hp
    simp [ownFieldsOpt] at hp
  | some v =>
    cases v with
    | obj l => exact h
    | undef => exact h.elim
    | null => exact h.elim
    | bool b => exact h.elim
    | num n => exact h.elim
    | str s => exact h.elim
    | arr xs => exact h.elim

/-- Value idempotence of the merge at one key of `T`: overlaying the
already-merged manifest the way a second merge does yields the value the
first merge produced. -/
theorem merge_val_idem (T E : List (String × J))
    (hTn : NodupKeys T) (hEn : NodupKeys E)
    (hTu : ∀ p ∈ T, p.2.isUndef = false) (hEu : ∀ p ∈ E, p.2.isUndef = false)
    (hdT : DepOk (oget T "dependencies")) (hdE : DepOk (oget E "dependencies"))
    (hvT : DepOk (oget T "devDependencies")) (hvE : DepOk (oget E "devDependencies"))
    (k : String) (v : J) (hTk : oget T k = some v) (hkb : ¬ k = "bake") :
    jnorm ((oget (mergeOpts (J.obj T)
        (J.obj (jnormFields (mergeResultFields (J.obj T) (J.obj E))))) k).getD
      ((oget (jnormFields (mergeResultFields (J.obj T) (J.obj E))) k).getD v))
    = jnorm ((oget (mergeOpts (J.obj T) (J.obj E)) k).getD ((oget E k).getD v)) := by
  have hgen : oget (mergeOpts (J.obj T) (J.obj E)) k = none →
      oget (mergeOpts (J.obj T)
        (J.obj (jnormFields (mergeResultFields (J.obj T) (J.obj E))))) k = none →
      jnorm ((oget (mergeOpts (J.obj T)
          (J.obj (jnormFields (mergeResultFields (J.obj T) (J.obj E))))) k).getD
        ((oget (jnormFields (mergeResultFields (J.obj T) (J.obj E))) k).getD v))
      = jnorm ((oget (mergeOpts (J.obj T) (J.obj E)) k).getD ((oget E k).getD v)) := by
    intro ho1 ho2
    rw [ho1, ho2, Option.getD_none, Option.getD_none]
    rw [merge_get T E hTn hEn k, ho1]
    cases hE : oget E k with
    | some w =>
      have hw : w.isUndef = false := by
        have := hEu _ (oget_some_mem hE)
        simpa using this
      simp [hw, jnorm_idem]
    | none =>
      rw [hTk]
      have hv : v.isUndef = false := by
        have := hTu _ (oget_some_mem hTk)
        simpa using this
      simp [hv, jnorm_idem]
  by_cases hdev : k = "devDependencies"
  · subst hdev
    by_cases c1 : truthy ((oget T "devDependencies").getD J.undef) = true
    · cases hTv : oget T "devDependencies" with
      | none =>
        rw [hTv] at c1
        simp [truthy] at c1
      | some w =>
        rw [hTv] at hvT
        cases w with
        | obj lvT =>
          have hc : truthy ((oget (ownFields (J.obj T)) "devDependencies").getD J.undef)
              = true := by simpa [ownFields] using c1
          have hbE := depok_fields (oget E "devDependencies") hvE
          have ha_n : NodupKeys (oassign [] lvT) := nodup_oassign [] lvT nodup_keys_nil
          have ha_u : ∀ p ∈ oassign [] lvT, p.2.isUndef = false :=
            oassign_val_mem (fun x => x.isUndef = false) [] lvT
              (by intro p hp; simp at hp) hvT.2
          have ho1 : oget (mergeOpts (J.obj T) (J.obj E)) "devDependencies"
              = some (J.obj (oassign (oassign [] lvT)
                  (ownFieldsOpt (oget E "devDependencies")))) := by
            have := mergeOpts_devDeps_some (J.obj T) (J.obj E) hc
            simpa [ownFields, ownFieldsOpt, hTv] using this
          have ho2 : oget (mergeOpts (J.obj T)
              (J.obj (jnormFields (mergeResultFields (J.obj T) (J.obj E))))) "devDependencies"
              = some (J.obj (oassign (oassign [] lvT)
                  (ownFieldsOpt (oget (jnormFields (mergeResultFields (J.obj T) (J.obj E)))
                    "devDependencies")))) := by
            have := mergeOpts_devDeps_some (J.obj T)
              (J.obj (jnormFields (mergeResultFields (J.obj T) (J.obj E)))) hc
            simpa [ownFields, ownFieldsOpt, hTv] using this
          have hMdev : oget (jnormFields (mergeResultFields (J.obj T) (J.obj E)))
              "devDependencies"
              = some (J.obj (jnormFields (oassign (oassign [] lvT)
                  (ownFieldsOpt (oget E "devDependencies"))))) := by
            rw [merge_get T E hTn hEn "devDependencies", ho1]
            rfl
          rw [ho1, ho2, hMdev]
          show J.obj (jnormFields (oassign (oassign [] lvT)
              (jnormFields (oassign (oassign [] lvT)
                (ownFieldsOpt (oget E "devDependencies"))))))
            = J.obj (jnormFields (oassign (oassign [] lvT)
              (ownFieldsOpt (oget E "devDependencies"))))
          exact congrArg J.obj
            (dep_merge_idem (oassign [] lvT) (ownFieldsOpt (oget E "devDependencies"))
              ha_n hbE.1 ha_u hbE.2)
        | undef => exact hvT.elim
        | null => exact hvT.elim
        | bool b => exact hvT.elim
        | num n => exact hvT.elim
        | str s => exact hvT.elim
        | arr xs => exact hvT.elim
    · have c1f : truthy ((oget (ownFields (J.obj T)) "devDependencies").getD J.undef)
          = false := by
        simpa [ownFields] using (by simpa using c1 : ¬ _ = true)
      exact hgen (mergeOpts_devDeps_none _ _ c1f) (mergeOpts_devDeps_none _ _ c1f)
  · by_cases hdep : k = "dependencies"
    · subst hdep
      by_cases c2 : truthy ((oget T "dependencies").getD J.undef) = true
      · cases hTv : oget T "dependencies" with
        | none =>
          rw [hTv] at c2
          simp [truthy] at c2
        | some w =>
          rw [hTv] at hdT
          cases w with
          | obj ldT =>
            have hc : truthy ((oget (ownFields (J.obj T)) "dependencies").getD J.undef)
                = true := by simpa [ownFields] using c2
            have hbE := depok_fields (oget E "dependencies") hdE
            have ha_n : NodupKeys (oassign [] ldT) := nodup_oassign [] ldT nodup_keys_nil
            have ha_u : ∀ p ∈ oassign [] ldT, p.2.isUndef = false :=
              oassign_val_mem (fun x => x.isUndef = false) [] ldT
                (by intro p hp; simp at hp) hdT.2
            have ho1 : oget (mergeOpts (J.obj T) (J.obj E)) "dependencies"
                = some (J.obj (oassign (oassign [] ldT)
                    (ownFieldsOpt (oget E "dependencies")))) := by
              have := mergeOpts_deps_some (J.obj T) (J.obj E) hc
              simpa [ownFields, ownFieldsOpt, hTv] using this
            have ho2 : oget (mergeOpts (J.obj T)
                (J.obj (jnormFields (mergeResultFields (J.obj T) (J.obj E))))) "dependencies"
                = some (J.obj (oassign (oassign [] ldT)
                    (ownFieldsOpt (oget (jnormFields (mergeResultFields (J.obj T) (J.obj E)))
                      "dependencies")))) := by
              have := mergeOpts_deps_some (J.obj T)
                (J.obj (jnormFields (mergeResultFields (J.obj T) (J.obj E)))) hc
              simpa [ownFields, ownFieldsOpt, hTv] using this
            have hMdep : oget (jnormFields (mergeResultFields (J.obj T) (J.obj E)))
                "dependencies"
                = some (J.obj (jnormFields (oassign (oassign [] ldT)
                    (ownFieldsOpt (oget E "dependencies"))))) := by
              rw [merge_get T E hTn hEn "dependencies", ho1]
              rfl
            rw [ho1, ho2, hMdep]
            show J.obj (jnormFields (oassign (oassign [] ldT)
                (jnormFields (oassign (oassign [] ldT)
                  (ownFieldsOpt (oget E "dependencies"))))))
              = J.obj (jnormFields (oassign (oassign [] ldT)
                (ownFieldsOpt (oget E "dependencies"))))
            exact congrArg J.obj
              (dep_merge_idem (oassign [] ldT) (ownFieldsOpt (oget E "dependencies"))
                ha_n hbE.1 ha_u hbE.2)
          | undef => exact hdT.elim
          | null => exact hdT.elim
          | bool b => exact hdT.elim
          | num n => exact hdT.elim
          | str s => exact hdT.elim
          | arr xs => exact hdT.elim
      · have c2f : truthy ((oget (ownFields (J.obj T)) "dependencies").getD J.undef)
            = false := by
          simpa [ownFields] using (by simpa using c2 : ¬ _ = true)
        exact hgen (mergeOpts_deps_none _ _ c2f) (mergeOpts_deps_none _ _ c2f)
    · exact hgen (mergeOpts_other _ _ k (fun h => hkb h.symm) (fun h => hdev h.symm)
          (fun h => hdep h.symm))
        (mergeOpts_other _ _ k (fun h => hkb h.symm) (fun h => hdev h.symm)
          (fun h => hdep h.symm))

/-! ## Branch shapes of `run` -/

theorem run_eq_start_fail (env : RunEnv) (cwd : String) (fs : Fs)
    (name? : Option String) (settle : List String) (t : TemplateEntry)
    (ht : resolveT env name? = some t)
    (b1 : (invoke env.execOk (scriptsOf t) "start").2 = false) :
    run env cwd fs name? settle
      = ((invoke env.execOk (scriptsOf t) "start").1, fs, Outcome.escaped) := by
  unfold run
  rw [ht]
  simp [b1]

theorem run_eq_missing_dir (env : RunEnv) (cwd : String) (fs : Fs)
    (name? : Option String) (settle : List String) (t : TemplateEntry)
    (ht : resolveT env name? = some t)
    (b1 : (invoke env.execOk (scriptsOf t) "start").2 = true)
    (b2 : env.dirExists t.dir = false) :
    run env cwd fs name? settle
      = ((invoke env.execOk (scriptsOf t) "start").1 ++ [Ev.failE], fs, Outcome.surfaced) := by
  unfold run
  rw [ht]
  have hexp : expandTemplateDirectory env cwd fs t = (⟨t.dir, t.name, t.json, none⟩, fs, []) := by
    simp [expandTemplateDirectory, b2]
  simp [b1, hexp]

theorem run_eq_ok (env : RunEnv) (cwd : String) (fs : Fs)
    (name? : Option String) (settle : List String) (t : TemplateEntry)
    (ht : resolveT env name? = some t)
    (b1 : (invoke env.execOk (scriptsOf t) "start").2 = true)
    (b2 : env.dirExists t.dir = true)
    (b3 : settle.all env.opOk = true)
    (b4 : (invoke env.execOk (scriptsOf t) "install").2 = true) :
    run env cwd fs name? settle
      = ((invoke env.execOk (scriptsOf t) "start").1
          ++ (launchOps env cwd (expandFiles env.listDir env.isFile t.dir) fs).2
          ++ settleTrace env.opOk settle
          ++ (invoke env.execOk (scriptsOf t) "install").1,
         (launchOps env cwd (expandFiles env.listDir env.isFile t.dir) fs).1, Outcome.ok) := by
  unfold run
  rw [ht]
  have hexp : expandTemplateDirectory env cwd fs t
      = (⟨t.dir, t.name, t.json, some (expandFiles env.listDir env.isFile t.dir)⟩,
         (launchOps env cwd (expandFiles env.listDir env.isFile t.dir) fs).1,
         (launchOps env cwd (expandFiles env.listDir env.isFile t.dir) fs).2) := by
    simp [expandTemplateDirectory, b2]
  simp [b1, hexp, b3, b4]

theorem run_eq_install_fail (env : RunEnv) (cwd : String) (fs : Fs)
    (name? : Option String) (settle : List String) (t : TemplateEntry)
    (ht : resolveT env name? = some t)
    (b1 : (invoke env.execOk (scriptsOf t) "start").2 = true)
    (b2 : env.dirExists t.dir = true)
    (b3 : settle.all env.opOk = true)
    (b4 : (invoke env.execOk (scriptsOf t) "install").2 = false) :
    run env cwd fs name? settle
      = ((invoke env.execOk (scriptsOf t) "start").1
          ++ (launchOps env cwd (expandFiles env.listDir env.isFile t.dir) fs).2
          ++ settleTrace env.opOk settle
          ++ (invoke env.execOk (scriptsOf t) "install").1 ++ [Ev.failE],
         (launchOps env cwd (expandFiles env.listDir env.isFile t.dir) fs).1,
         Outcome.surfaced) := by
  unfold run
  rw [ht]
  have hexp : expandTemplateDirectory env cwd fs t
      = (⟨t.dir, t.name, t.json, some (expandFiles env.listDir env.isFile t.dir)⟩,
         (launchOps env cwd (expandFiles env.listDir env.isFile t.dir) fs).1,
         (launchOps env cwd (expandFiles env.listDir env.isFile t.dir) fs).2) := by
    simp [expandTemplateDirectory, b2]
  simp [b1, hexp, b3, b4]

theorem run_eq_op_fail (env : RunEnv) (cwd : String) (fs : Fs)
    (name? : Option String) (settle : List String) (t : TemplateEntry)
    (ht : resolveT env name? = some t)
    (b1 : (invoke env.execOk (scriptsOf t) "start").2 = true)
    (b2 : env.dirExists t.dir = true)
    (b3 : settle.all env.opOk = false) :
    run env cwd fs name? settle
      = ((invoke env.execOk (scriptsOf t) "start").1
          ++ (launchOps env cwd (expandFiles env.listDir env.isFile t.dir) fs).2
          ++ settleTrace env.opOk settle ++ [Ev.failE],
         (launchOps env cwd (expandFiles env.listDir env.isFile t.dir) fs).1,
         Outcome.surfaced) := by
  unfold run
  rw [ht]
  have hexp : expandTemplateDirectory env cwd fs t
      = (⟨t.dir, t.name, t.json, some (expandFiles env.listDir env.isFile t.dir)⟩,
         (launchOps env cwd (expandFiles env.listDir env.isFile t.dir) fs).1,
         (launchOps env cwd (expandFiles env.listDir env.isFile t.dir) fs).2) := by
    simp [expandTemplateDirectory, b2]
  simp [b1, hexp, b3]

theorem run_eq_not_found (env : RunEnv) (cwd : String) (fs : Fs)
    (name? : Option String) (settle : List String)
    (ht : resolveT env name? = none) :
    run env cwd fs name? settle = ([Ev.failE], fs, Outcome.surfaced) := by
  unfold run
  rw [ht]

/-! ## Claims -/

/-- C10: for every template whose recorded directory does not exist at
expansion time, expanding the template performs no filesystem reads or
writes (the filesystem is returned unchanged and no operation event is
emitted) and returns the template object unchanged, in particular without
any `promises` list of per-file operations. -/
theorem c10_expand_missing_dir (env : RunEnv) (cwd : String) (fs : Fs)
    (t : TemplateEntry) (h : env.dirExists t.dir = false) :
    expandTemplateDirectory env cwd fs t = (⟨t.dir, t.name, t.json, none⟩, fs, []) := by
  simp [expandTemplateDirectory, h]

/-- Witness for C10 at a concrete environment whose template directory is
absent. -/
theorem c10_expand_missing_dir_witness :
    expandTemplateDirectory
      ⟨[], fun _ => false, fun _ => [], fun _ => false, fun _ => true, fun _ => true⟩
      "." [] ⟨"tpl", "tpl", J.obj []⟩
      = (⟨"tpl", "tpl", J.obj [], none⟩, [], []) :=
  c10_expand_missing_dir
    ⟨[], fun _ => false, fun _ => [], fun _ => false, fun _ => true, fun _ => true⟩
    "." [] ⟨"tpl", "tpl", J.obj []⟩ rfl

/-- C3: for a regular (non-manifest) template file whose destination
already exists, the copy is skipped entirely — the filesystem (hence the
destination's contents) is unchanged, a non-fatal "already exists,
skipping" warning is reported, and the operation still fulfils (given no
injected I/O fault on the source read). -/
theorem c3_stream_skips_existing (fs : Fs) (cwd file : String) (c : J)
    (hreg : basename file ≠ "package.json")
    (hex : oget fs (cwd ++ "/" ++ basename file) = some c) :
    templateOp true fs cwd file = (fs, [Ev.warn "already exists, skipping"], true) := by
  simp only [templateOp, if_neg hreg, stream, hex]
  simp

/-- Witness for C3: an existing `a.txt` at the destination is not
overwritten. -/
theorem c3_stream_skips_existing_witness :
    templateOp true [("cwd/a.txt", J.str "old"), ("tpl/a.txt", J.str "new")] "cwd" "tpl/a.txt"
      = ([("cwd/a.txt", J.str "old"), ("tpl/a.txt", J.str "new")],
         [Ev.warn "already exists, skipping"], true) :=
  c3_stream_skips_existing
    [("cwd/a.txt", J.str "old"), ("tpl/a.txt", J.str "new")] "cwd" "tpl/a.txt"
    (J.str "old") (by decide) rfl

/-- C9: a run invoked with a name carried by no discovered template fails
through the failure reporter with the filesystem untouched: the trace is
exactly one `CLI.fail` call — no hook spawn, no file operation — and the
returned filesystem is the input one. -/
theorem c9_unknown_template (env : RunEnv) (cwd : String) (fs : Fs)
    (name? : Option String) (settle : List String)
    (h : ∀ t ∈ env.templates, t.name ≠ name?.getD "default") :
    run env cwd fs name? settle = ([Ev.failE], fs, Outcome.surfaced) := by
  have hfind : resolveT env name? = none := by
    apply List.find?_eq_none.mpr
    intro t ht
    simp [h t ht]
  simp [run, hfind]

/-- Witness for C9: requesting template "nope" when only "node" exists. -/
theorem c9_unknown_template_witness :
    run ⟨[⟨"root/node", "node", J.obj []⟩], fun _ => true, fun _ => [], fun _ => true,
          fun _ => true, fun _ => true⟩
        "cwd" [("cwd/f", J.str "x")] (some "nope") []
      = ([Ev.failE], [("cwd/f", J.str "x")], Outcome.surfaced) :=
  c9_unknown_template
    ⟨[⟨"root/node", "node", J.obj []⟩], fun _ => true, fun _ => [], fun _ => true,
      fun _ => true, fun _ => true⟩
    "cwd" [("cwd/f", J.str "x")] (some "nope") []
    (by intro t ht; simp at ht; subst ht; decide)

/-- C8: invoking phase `P` runs exactly the sub-hooks `pre<P>`, `<P>`,
`post<P>` in that order (each spawn awaited before the next, as witnessed
by the trace order, given every spawned command succeeds); a sub-hook
whose configured script is absent or falsy contributes no spawn, and if
all three are absent the phase resolves with zero spawned processes. -/
theorem c8_invoke_runs_sub_hooks (execOk : J → Bool) (scr : List (String × J)) (P : String) :
    ((∀ j, execOk j = true) →
      invoke execOk scr P =
        (([("pre" ++ P), P, ("post" ++ P)]).filterMap (fun n =>
          if truthy ((oget scr n).getD J.undef) then
            some (Ev.spawn n ((oget scr n).getD J.undef))
          else none), true))
    ∧ ((truthy ((oget scr ("pre" ++ P)).getD J.undef) = false ∧
        truthy ((oget scr P).getD J.undef) = false ∧
        truthy ((oget scr ("post" ++ P)).getD J.undef) = false) →
      invoke execOk scr P = ([], true)) := by
  constructor
  · intro hexec
    by_cases h1 : truthy ((oget scr ("pre" ++ P)).getD J.undef) <;>
      by_cases h2 : truthy ((oget scr P).getD J.undef) <;>
        by_cases h3 : truthy ((oget scr ("post" ++ P)).getD J.undef) <;>
          simp [invoke, script, h1, h2, h3, hexec]
  · rintro ⟨h1, h2, h3⟩
    simp [invoke, script, h1, h2, h3]

/-- C6: within a run whose template resolves, the start phase (its
pre/main/post spawns) completes strictly before any file-expansion event,
every file-expansion event (launches, warnings, settlements) precedes
every install-phase spawn, and if the install phase emits any spawn then
every launched file's successful settlement is already in the trace — the
barrier has joined before the install phase begins. -/
theorem c6_run_phase_barriers (env : RunEnv) (cwd : String) (fs : Fs)
    (name? : Option String) (settle : List String) (t : TemplateEntry)
    (ht : resolveT env name? = some t)
    (hperm : settle.Perm (expandFiles env.listDir env.isFile t.dir)) :
    (∀ i j (hi : i < (run env cwd fs name? settle).1.length)
        (hj : j < (run env cwd fs name? settle).1.length),
        isStartHook ((run env cwd fs name? settle).1.get ⟨i, hi⟩) = true →
        isOpEvent ((run env cwd fs name? settle).1.get ⟨j, hj⟩) = true → i < j)
    ∧ (∀ i j (hi : i < (run env cwd fs name? settle).1.length)
        (hj : j < (run env cwd fs name? settle).1.length),
        isOpEvent ((run env cwd fs name? settle).1.get ⟨i, hi⟩) = true →
        isInstallHook ((run env cwd fs name? settle).1.get ⟨j, hj⟩) = true → i < j)
    ∧ ((run env cwd fs name? settle).1.any isInstallHook = true →
        ∀ f ∈ expandFiles env.listDir env.isFile t.dir,
          Ev.opDone f true ∈ (run env cwd fs name? settle).1) := by
  have hsOp : ∀ e ∈ (invoke env.execOk (scriptsOf t) "start").1, isOpEvent e = false :=
    fun e he => (start_events_classify env.execOk (scriptsOf t) e he).1
  have hsInst : ∀ e ∈ (invoke env.execOk (scriptsOf t) "start").1, isInstallHook e = false :=
    fun e he => (start_events_classify env.execOk (scriptsOf t) e he).2.1
  have hiOp : ∀ e ∈ (invoke env.execOk (scriptsOf t) "install").1, isOpEvent e = false :=
    fun e he => (install_events_classify env.execOk (scriptsOf t) e he).1
  have hiStart : ∀ e ∈ (invoke env.execOk (scriptsOf t) "install").1, isStartHook e = false :=
    fun e he => (install_events_classify env.execOk (scriptsOf t) e he).2.1
  have hLOp : ∀ e ∈ (launchOps env cwd (expandFiles env.listDir env.isFile t.dir) fs).2,
      isOpEvent e = true := launchOps_events env cwd _ fs
  have hLStart : ∀ e ∈ (launchOps env cwd (expandFiles env.listDir env.isFile t.dir) fs).2,
      isStartHook e = false := fun e he => (isOpEvent_not_hook (hLOp e he)).1
  have hLInst : ∀ e ∈ (launchOps env cwd (expandFiles env.listDir env.isFile t.dir) fs).2,
      isInstallHook e = false := fun e he => (isOpEvent_not_hook (hLOp e he)).2.1
  have hDStart : ∀ e ∈ settleTrace env.opOk settle, isStartHook e = false :=
    fun e he => (settle_events_classify env.opOk settle e he).1
  have hDInst : ∀ e ∈ settleTrace env.opOk settle, isInstallHook e = false :=
    fun e he => (settle_events_classify env.opOk settle e he).2.1
  have hDOp : ∀ e ∈ settleTrace env.opOk settle, isOpEvent e = true := by
    intro e he
    obtain ⟨f, o, hf⟩ := settleTrace_events env.opOk settle e he
    simp [hf, isOpEvent]
  have hFailStart : ∀ e ∈ [Ev.failE], isStartHook e = false := by
    intro e he
    simp at he
    simp [he, isStartHook]
  have hFailOp : ∀ e ∈ [Ev.failE], isOpEvent e = false := by
    intro e he
    simp at he
    simp [he, isOpEvent]
  have hFailInst : ∀ e ∈ [Ev.failE], isInstallHook e = false := by
    intro e he
    simp at he
    simp [he, isInstallHook]
  by_cases b1 : (invoke env.execOk (scriptsOf t) "start").2 = true
  · by_cases b2 : env.dirExists t.dir = true
    · by_cases b3 : settle.all env.opOk = true
      · by_cases b4 : (invoke env.execOk (scriptsOf t) "install").2 = true
        · have hr := run_eq_ok env cwd fs name? settle t ht b1 b2 b3 b4
          have htr1 : (run env cwd fs name? settle).1
              = (invoke env.execOk (scriptsOf t) "start").1
                ++ ((launchOps env cwd (expandFiles env.listDir env.isFile t.dir) fs).2
                  ++ (settleTrace env.opOk settle
                    ++ (invoke env.execOk (scriptsOf t) "install").1)) := by
            rw [hr]
            simp [List.append_assoc]
          have htr2 : (run env cwd fs name? settle).1
              = ((invoke env.execOk (scriptsOf t) "start").1
                  ++ (launchOps env cwd (expandFiles env.listDir env.isFile t.dir) fs).2
                  ++ settleTrace env.opOk settle)
                ++ (invoke env.execOk (scriptsOf t) "install").1 := by
            rw [hr]
          refine ⟨?_, ?_, ?_⟩
          · rw [htr1]
            exact sep_lt _ _ _ _ hsOp
              (forall_mem_append_ev hLStart (forall_mem_append_ev hDStart hiStart))
          · rw [htr2]
            exact sep_lt _ _ _ _
              (forall_mem_append_ev (forall_mem_append_ev hsInst hLInst) hDInst) hiOp
          · intro _ f hf
            rw [htr1]
            have hmem : Ev.opDone f true ∈ settleTrace env.opOk settle := by
              rw [settleTrace_all_ok env.opOk settle b3]
              exact List.mem_map_of_mem _ (hperm.mem_iff.mpr hf)
            exact List.mem_append_right _
              (List.mem_append_right _ (List.mem_append_left _ hmem))
        · have hr := run_eq_install_fail env cwd fs name? settle t ht b1 b2 b3
            (by simpa using b4)
          have htr1 : (run env cwd fs name? settle).1
              = (invoke env.execOk (scriptsOf t) "start").1
                ++ ((launchOps env cwd (expandFiles env.listDir env.isFile t.dir) fs).2
                  ++ (settleTrace env.opOk settle
                    ++ ((invoke env.execOk (scriptsOf t) "install").1 ++ [Ev.failE]))) := by
            rw [hr]
            simp [List.append_assoc]
          have htr2 : (run env cwd fs name? settle).1
              = ((invoke env.execOk (scriptsOf t) "start").1
                  ++ (launchOps env cwd (expandFiles env.listDir env.isFile t.dir) fs).2
                  ++ settleTrace env.opOk settle)
                ++ ((invoke env.execOk (scriptsOf t) "install").1 ++ [Ev.failE]) := by
            rw [hr]
            simp [List.append_assoc]
          refine ⟨?_, ?_, ?_⟩
          · rw [htr1]
            exact sep_lt _ _ _ _ hsOp
              (forall_mem_append_ev hLStart (forall_mem_append_ev hDStart
                (forall_mem_append_ev hiStart hFailStart)))
          · rw [htr2]
            exact sep_lt _ _ _ _
              (forall_mem_append_ev (forall_mem_append_ev hsInst hLInst) hDInst)
              (forall_mem_append_ev hiOp hFailOp)
          · intro _ f hf
            rw [htr1]
            have hmem : Ev.opDone f true ∈ settleTrace env.opOk settle := by
              rw [settleTrace_all_ok env.opOk settle b3]
              exact List.mem_map_of_mem _ (hperm.mem_iff.mpr hf)
            exact List.mem_append_right _
              (List.mem_append_right _ (List.mem_append_left _ hmem))
      · have hr := run_eq_op_fail env cwd fs name? settle t ht b1 b2 (by simpa using b3)
        have htr1 : (run env cwd fs name? settle).1
            = (invoke env.execOk (scriptsOf t) "start").1
              ++ ((launchOps env cwd (expandFiles env.listDir env.isFile t.dir) fs).2
                ++ (settleTrace env.opOk settle ++ [Ev.failE])) := by
          rw [hr]
          simp [List.append_assoc]
        have htr2 : (run env cwd fs name? settle).1
            = ((invoke env.execOk (scriptsOf t) "start").1
                ++ (launchOps env cwd (expandFiles env.listDir env.isFile t.dir) fs).2
                ++ settleTrace env.opOk settle)
              ++ [Ev.failE] := by
          rw [hr]
        refine ⟨?_, ?_, ?_⟩
        · rw [htr1]
          exact sep_lt _ _ _ _ hsOp
            (forall_mem_append_ev hLStart (forall_mem_append_ev hDStart hFailStart))
        · rw [htr2]
          exact sep_lt _ _ _ _
            (forall_mem_append_ev (forall_mem_append_ev hsInst hLInst) hDInst) hFailOp
        · intro hany
          rw [htr1] at hany
          obtain ⟨e, he, hie⟩ := List.any_eq_true.mp hany
          have hni : isInstallHook e = false :=
            forall_mem_append_ev hsInst
              (forall_mem_append_ev hLInst (forall_mem_append_ev hDInst hFailInst)) e he
          rw [hni] at hie
          simp at hie
    · have hr := run_eq_missing_dir env cwd fs name? settle t ht b1 (by simpa using b2)
      have htr1 : (run env cwd fs name? settle).1
          = (invoke env.execOk (scriptsOf t) "start").1 ++ [Ev.failE] := by
        rw [hr]
      refine ⟨?_, ?_, ?_⟩
      · rw [htr1]
        exact sep_lt _ _ _ _ hsOp hFailStart
      · rw [htr1]
        exact sep_lt _ _ _ _ hsInst hFailOp
      · intro hany
        rw [htr1] at hany
        obtain ⟨e, he, hie⟩ := List.any_eq_true.mp hany
        have hni : isInstallHook e = false :=
          forall_mem_append_ev hsInst hFailInst e he
        rw [hni] at hie
        simp at hie
  · have hr := run_eq_start_fail env cwd fs name? settle t ht (by simpa using b1)
    have htr1 : (run env cwd fs name? settle).1
        = (invoke env.execOk (scriptsOf t) "start").1 := by
      rw [hr]
    refine ⟨?_, ?_, ?_⟩
    · rw [htr1]
      intro i j hi hj hp hq
      rw [hsOp _ (List.get_mem _ _ _)] at hq
      simp at hq
    · rw [htr1]
      intro i j hi hj hp hq
      rw [hsInst _ (List.get_mem _ _ _)] at hq
      simp at hq
    · intro hany
      rw [htr1] at hany
      obtain ⟨e, he, hie⟩ := List.any_eq_true.mp hany
      rw [hsInst e he] at hie
      simp at hie

/-- Witness for C6 at a concrete environment: one template with one file
and a start and install hook, everything succeeding. -/
theorem c6_run_phase_barriers_witness :
    (∀ i j (hi : i < (run
        ⟨[⟨"r/node", "node",
            J.obj [("bake", J.obj [("scripts", J.obj [("start", J.str "s"), ("install", J.str "i")])])]⟩],
          fun _ => true, fun _ => ["Makefile"], fun _ => true, fun _ => true, fun _ => true⟩
        "cwd" [] (some "node") ["r/node/Makefile"]).1.length)
        (hj : j < (run
        ⟨[⟨"r/node", "node",
            J.obj [("bake", J.obj [("scripts", J.obj [("start", J.str "s"), ("install", J.str "i")])])]⟩],
          fun _ => true, fun _ => ["Makefile"], fun _ => true, fun _ => true, fun _ => true⟩
        "cwd" [] (some "node") ["r/node/Makefile"]).1.length),
        isStartHook ((run
        ⟨[⟨"r/node", "node",
            J.obj [("bake", J.obj [("scripts", J.obj [("start", J.str "s"), ("install", J.str "i")])])]⟩],
          fun _ => true, fun _ => ["Makefile"], fun _ => true, fun _ => true, fun _ => true⟩
        "cwd" [] (some "node") ["r/node/Makefile"]).1.get ⟨i, hi⟩) = true →
        isOpEvent ((run
        ⟨[⟨"r/node", "node",
            J.obj [("bake", J.obj [("scripts", J.obj [("start", J.str "s"), ("install", J.str "i")])])]⟩],
          fun _ => true, fun _ => ["Makefile"], fun _ => true, fun _ => true, fun _ => true⟩
        "cwd" [] (some "node") ["r/node/Makefile"]).1.get ⟨j, hj⟩) = true → i < j)
    ∧ (∀ f ∈ expandFiles (fun _ => ["Makefile"]) (fun _ => true) "r/node",
        Ev.opDone f true ∈ (run
        ⟨[⟨"r/node", "node",
            J.obj [("bake", J.obj [("scripts", J.obj [("start", J.str "s"), ("install", J.str "i")])])]⟩],
          fun _ => true, fun _ => ["Makefile"], fun _ => true, fun _ => true, fun _ => true⟩
        "cwd" [] (some "node") ["r/node/Makefile"]).1) := by
  have h := c6_run_phase_barriers
    ⟨[⟨"r/node", "node",
        J.obj [("bake", J.obj [("scripts", J.obj [("start", J.str "s"), ("install", J.str "i")])])]⟩],
      fun _ => true, fun _ => ["Makefile"], fun _ => true, fun _ => true, fun _ => true⟩
    "cwd" [] (some "node") ["r/node/Makefile"]
    ⟨"r/node", "node",
      J.obj [("bake", J.obj [("scripts", J.obj [("start", J.str "s"), ("install", J.str "i")])])]⟩
    rfl (by rfl)
  refine ⟨h.1, ?_⟩
  apply h.2.2
  rfl

/-- C5: for search roots in priority order, resolution returns the
template of the lowest-indexed existing root containing a subdirectory of
the requested name (templates of the same name in later roots are
unreachable, since the scan returns this first match); and when no name
is given, resolution uses the name "default". -/
theorem c5_resolution_priority (env : DiscoverEnv) (renv : RunEnv) (name : String)
    (pre post : List String) (r : String)
    (htempl : renv.templates = loadTemplates env)
    (hroots : env.dirs.filter env.rootExists = pre ++ r :: post)
    (hpre : ∀ d ∈ pre, ∀ e ∈ loadTemplatesFrom env d, basename e ≠ name)
    (hent : ∀ e ∈ env.listDir r, e ≠ "" ∧ ∀ c ∈ e.toList, c ≠ '/')
    (hsub : name ∈ env.listDir r) (hdir : env.isDir (r ++ "/" ++ name) = true) :
    resolveT renv (some name)
      = some ⟨r ++ "/" ++ name, name,
          (env.manifestAt (r ++ "/" ++ name ++ "/package.json")).getD (J.obj [])⟩
    ∧ ∀ (renv2 : RunEnv) (cwd : String) (fs : Fs) (settle : List String),
        run renv2 cwd fs none settle = run renv2 cwd fs (some "default") settle := by
  constructor
  · unfold resolveT
    rw [htempl]
    unfold loadTemplates
    rw [hroots, foldl_append_init]
    simp only [List.nil_append, Option.getD_some]
    have hdec : (List.map (loadTemplatesFrom env) (pre ++ r :: post)).flatten
        = (pre.map (loadTemplatesFrom env)).flatten
          ++ (loadTemplatesFrom env r ++ (post.map (loadTemplatesFrom env)).flatten) := by
      simp
    rw [hdec, List.map_append, List.map_append]
    rw [List.find?_append, List.find?_append]
    have hnone : (((pre.map (loadTemplatesFrom env)).flatten).map
        (fun dir => (⟨dir, basename dir,
          (env.manifestAt (dir ++ "/package.json")).getD (J.obj [])⟩ : TemplateEntry))).find?
        (fun t => t.name == name) = none := by
      apply List.find?_eq_none.mpr
      intro t ht
      rcases List.mem_map.mp ht with ⟨dir, hdir2, hmk⟩
      rcases List.mem_flatten.mp hdir2 with ⟨l, hl, hdl⟩
      rcases List.mem_map.mp hl with ⟨d, hd, hfd⟩
      subst hfd
      subst hmk
      simp [hpre d hd dir hdl]
    rw [hnone]
    simp only [Option.none_or]
    rw [show loadTemplatesFrom env r
        = ((env.listDir r).map (fun e => r ++ "/" ++ e)).filter env.isDir from rfl]
    rw [find_template_in_root env r name (env.listDir r) hent hsub hdir]
    rfl
  · intro renv2 cwd fs settle
    rfl

/-- Witness for C5: the name "es6" exists only in the second root and is
found there; a same-named template in an even later root would be ignored
by the first-match scan; resolution with no name equals resolution of
"default". -/
theorem c5_resolution_priority_witness :
    resolveT
      ⟨loadTemplates ⟨["u", "b"], fun _ => true,
          fun d => if d = "u" then ["node"] else ["node", "es6"], fun _ => true,
          fun _ => none⟩,
        fun _ => true, fun _ => [], fun _ => true, fun _ => true, fun _ => true⟩
      (some "es6")
      = some ⟨"b" ++ "/" ++ "es6", "es6", J.obj []⟩
    ∧ run ⟨[], fun _ => true, fun _ => [], fun _ => true, fun _ => true, fun _ => true⟩
        "." [] none []
      = run ⟨[], fun _ => true, fun _ => [], fun _ => true, fun _ => true, fun _ => true⟩
        "." [] (some "default") [] := by
  have h := c5_resolution_priority
    ⟨["u", "b"], fun _ => true,
      fun d => if d = "u" then ["node"] else ["node", "es6"], fun _ => true,
      fun _ => none⟩
    ⟨loadTemplates ⟨["u", "b"], fun _ => true,
        fun d => if d = "u" then ["node"] else ["node", "es6"], fun _ => true,
        fun _ => none⟩,
      fun _ => true, fun _ => [], fun _ => true, fun _ => true, fun _ => true⟩
    "es6" ["u"] [] "b" rfl rfl
    (by
      intro d hd e he
      simp at hd
      subst hd
      simp [loadTemplatesFrom] at he
      subst he
      decide)
    (by decide) (by decide) rfl
  exact ⟨h.1, h.2 _ "." [] []⟩

/-- C2 counterexample: with the destination manifest absent, the template
manifest is streamed verbatim, so the written `package.json` retains the
template's `bake` key — refuting "the written package.json never contains
a top-level bake key" for the destination-absent branch. -/
theorem c2_bake_cex :
    oget (json true [("tpl/package.json", J.obj [("bake", J.obj []), ("name", J.str "t")])]
        "tpl/package.json" "cwd/package.json").1 "cwd/package.json"
      = some (J.obj [("bake", J.obj []), ("name", J.str "t")])
    ∧ oget (ownFields (J.obj [("bake", J.obj []), ("name", J.str "t")])) "bake"
      = some (J.obj []) :=
  ⟨rfl, rfl⟩

/-- C2 (amended): when the destination manifest is present, the merged
output written by the manifest path never contains a top-level `bake` key,
regardless of whether either input had one; when the destination manifest
is absent, the template manifest is streamed verbatim — including any
`bake` key it carries. -/
theorem c2_bake_only_stripped_on_merge (fs : Fs) (file dest : String) :
    (∀ data, oget fs dest = some data →
      ∃ m, oget (json true fs file dest).1 dest = some m
        ∧ oget (ownFields m) "bake" = none)
    ∧ (oget fs dest = none →
      oget (json true fs file dest).1 dest = some ((oget fs file).getD J.null)) := by
  constructor
  · intro data hd
    refine ⟨mergeJSONContent ((oget fs file).getD J.null) data, ?_,
      mergeJSONContent_no_bake _ _⟩
    simp [json, hd, oget_oset_self]
  · intro hd
    simp [json, hd, stream, oget_oset_self]

/-- Witness for C2 (amended): a concrete merge has no `bake` key in its
output; a concrete fresh write copies the template manifest verbatim. -/
theorem c2_bake_only_stripped_on_merge_witness :
    (∃ m, oget (json true [("cwd/package.json", J.obj [("name", J.str "mine")]),
        ("tpl/package.json", J.obj [("bake", J.obj [])])]
        "tpl/package.json" "cwd/package.json").1 "cwd/package.json" = some m
      ∧ oget (ownFields m) "bake" = none)
    ∧ oget (json true [("tpl2/package.json", J.obj [("a", J.str "b")])]
        "tpl2/package.json" "cwd2/package.json").1 "cwd2/package.json"
      = some (J.obj [("a", J.str "b")]) := by
  constructor
  · exact (c2_bake_only_stripped_on_merge
      [("cwd/package.json", J.obj [("name", J.str "mine")]),
       ("tpl/package.json", J.obj [("bake", J.obj [])])]
      "tpl/package.json" "cwd/package.json").1 (J.obj [("name", J.str "mine")]) rfl
  · have h := (c2_bake_only_stripped_on_merge
      [("tpl2/package.json", J.obj [("a", J.str "b")])]
      "tpl2/package.json" "cwd2/package.json").2 rfl
    rw [h]
    rfl

/-- C1: in a merge of an existing destination manifest `E` with a template
manifest `T`, the resulting `dependencies` map takes `E`'s value on keys
present in both, carries keys present only in `T` through, and preserves
keys present only in `E`; and the same holds for `devDependencies`. -/
theorem c1_merge_dependency_precedence
    (T E dT dE vT vE : List (String × J))
    (hdT : oget T "dependencies" = some (J.obj dT))
    (hdE : oget E "dependencies" = some (J.obj dE))
    (hvT : oget T "devDependencies" = some (J.obj vT))
    (hvE : oget E "devDependencies" = some (J.obj vE))
    (hdTn : NodupKeys dT) (hdEn : NodupKeys dE)
    (hvTn : NodupKeys vT) (hvEn : NodupKeys vE)
    (hdTs : ∀ p ∈ dT, ∃ s, p.2 = J.str s) (hdEs : ∀ p ∈ dE, ∃ s, p.2 = J.str s)
    (hvTs : ∀ p ∈ vT, ∃ s, p.2 = J.str s) (hvEs : ∀ p ∈ vE, ∃ s, p.2 = J.str s) :
    ∃ d v : List (String × J),
      oget (ownFields (mergeJSONContent (J.obj T) (J.obj E))) "dependencies"
        = some (J.obj d)
      ∧ oget (ownFields (mergeJSONContent (J.obj T) (J.obj E))) "devDependencies"
        = some (J.obj v)
      ∧ (∀ k x y, oget dE k = some x → oget dT k = some y → oget d k = some x)
      ∧ (∀ k y, oget dE k = none → oget dT k = some y → oget d k = some y)
      ∧ (∀ k x, oget dE k = some x → oget dT k = none → oget d k = some x)
      ∧ (∀ k x y, oget vE k = some x → oget vT k = some y → oget v k = some x)
      ∧ (∀ k y, oget vE k = none → oget vT k = some y → oget v k = some y)
      ∧ (∀ k x, oget vE k = some x → oget vT k = none → oget v k = some x) := by
  have hopts : mergeOpts (J.obj T) (J.obj E) =
      [("bake", J.undef),
       ("devDependencies", J.obj (oassign (oassign [] vT) vE)),
       ("dependencies", J.obj (oassign (oassign [] dT) dE))] := by
    unfold mergeOpts
    simp [ownFields, hdT, hdE, hvT, hvE, truthy, ownFieldsOpt, oset]
  have hDstr : ∀ p ∈ oassign dT dE, ∃ s, p.2 = J.str s :=
    oassign_val_mem (fun x => ∃ s, x = J.str s) dT dE hdTs hdEs
  have hVstr : ∀ p ∈ oassign vT vE, ∃ s, p.2 = J.str s :=
    oassign_val_mem (fun x => ∃ s, x = J.str s) vT vE hvTs hvEs
  have hdep : oget (ownFields (mergeJSONContent (J.obj T) (J.obj E))) "dependencies"
      = some (J.obj (oassign dT dE)) := by
    rw [mergeJSONContent_fields, oget_jnormFields _ _ (mergeResultFields_nodup _ _)]
    unfold mergeResultFields
    rw [oget_oassign _ _ _ (mergeOpts_nodup _ _), hopts]
    simp [oget, J.isUndef, jnorm]
    rw [oassign_nil dT hdTn, jnormFields_of_str _ hDstr]
  have hdev : oget (ownFields (mergeJSONContent (J.obj T) (J.obj E))) "devDependencies"
      = some (J.obj (oassign vT vE)) := by
    rw [mergeJSONContent_fields, oget_jnormFields _ _ (mergeResultFields_nodup _ _)]
    unfold mergeResultFields
    rw [oget_oassign _ _ _ (mergeOpts_nodup _ _), hopts]
    simp [oget, J.isUndef, jnorm]
    rw [oassign_nil vT hvTn, jnormFields_of_str _ hVstr]
  refine ⟨oassign dT dE, oassign vT vE, hdep, hdev, ?_, ?_, ?_, ?_, ?_, ?_⟩
  · intro k x y h1 h2
    rw [oget_oassign dT dE k hdEn, h1]
  · intro k y h1 h2
    rw [oget_oassign dT dE k hdEn, h1, h2]
  · intro k x h1 h2
    rw [oget_oassign dT dE k hdEn, h1]
  · intro k x y h1 h2
    rw [oget_oassign vT vE k hvEn, h1]
  · intro k y h1 h2
    rw [oget_oassign vT vE k hvEn, h1, h2]
  · intro k x h1 h2
    rw [oget_oassign vT vE k hvEn, h1]

/-- Witness for C1: the spec's Scenario B plus a devDependencies map. -/
theorem c1_merge_dependency_precedence_witness :
    (∃ d v : List (String × J),
      oget (ownFields (mergeJSONContent
          (J.obj [("dependencies", J.obj [("lodash", J.str "^4.0.0"), ("chalk", J.str "^2.0.0")]),
                  ("devDependencies", J.obj [("mocha", J.str "^2.0.0")])])
          (J.obj [("dependencies", J.obj [("lodash", J.str "^3.0.0")]),
                  ("devDependencies", J.obj [("mocha", J.str "^1.0.0")])])))
        "dependencies" = some (J.obj d)
      ∧ oget (ownFields (mergeJSONContent
          (J.obj [("dependencies", J.obj [("lodash", J.str "^4.0.0"), ("chalk", J.str "^2.0.0")]),
                  ("devDependencies", J.obj [("mocha", J.str "^2.0.0")])])
          (J.obj [("dependencies", J.obj [("lodash", J.str "^3.0.0")]),
                  ("devDependencies", J.obj [("mocha", J.str "^1.0.0")])])))
        "devDependencies" = some (J.obj v)
      ∧ oget d "lodash" = some (J.str "^3.0.0")
      ∧ oget d "chalk" = some (J.str "^2.0.0")
      ∧ oget v "mocha" = some (J.str "^1.0.0")) := by
  obtain ⟨d, v, h1, h2, hboth, honlyT, honlyE, vboth, vonlyT, vonlyE⟩ :=
    c1_merge_dependency_precedence
      [("dependencies", J.obj [("lodash", J.str "^4.0.0"), ("chalk", J.str "^2.0.0")]),
       ("devDependencies", J.obj [("mocha", J.str "^2.0.0")])]
      [("dependencies", J.obj [("lodash", J.str "^3.0.0")]),
       ("devDependencies", J.obj [("mocha", J.str "^1.0.0")])]
      [("lodash", J.str "^4.0.0"), ("chalk", J.str "^2.0.0")]
      [("lodash", J.str "^3.0.0")]
      [("mocha", J.str "^2.0.0")]
      [("mocha", J.str "^1.0.0")]
      rfl rfl rfl rfl
      (by simp [NodupKeys]) (by simp [NodupKeys]) (by simp [NodupKeys]) (by simp [NodupKeys])
      (by intro p hp; simp at hp; rcases hp with h | h <;> (subst h; exact ⟨_, rfl⟩))
      (by intro p hp; simp at hp; subst hp; exact ⟨_, rfl⟩)
      (by intro p hp; simp at hp; subst hp; exact ⟨_, rfl⟩)
      (by intro p hp; simp at hp; subst hp; exact ⟨_, rfl⟩)
  exact ⟨d, v, h1, h2,
    hboth "lodash" (J.str "^3.0.0") (J.str "^4.0.0") rfl rfl,
    honlyT "chalk" (J.str "^2.0.0") rfl rfl,
    vboth "mocha" (J.str "^1.0.0") (J.str "^2.0.0") rfl rfl⟩

/-- Witness for C8: a phase with only the main hook configured spawns
exactly it; a phase with no hooks configured spawns nothing. -/
theorem c8_invoke_runs_sub_hooks_witness :
    invoke (fun _ => true) [("start", J.str "echo hi")] "start"
      = ([Ev.spawn "start" (J.str "echo hi")], true)
    ∧ invoke (fun _ => true) [] "start" = ([], true) := by
  constructor
  · rw [(c8_invoke_runs_sub_hooks (fun _ => true) [("start", J.str "echo hi")] "start").1
      (fun _ => rfl)]
    rfl
  · exact (c8_invoke_runs_sub_hooks (fun _ => true) [] "start").2 ⟨rfl, rfl, rfl⟩

/-- C4: the manifest merge is idempotent — merging the same template
manifest a second time into the already-merged result writes back exactly
the same manifest, for every well-formed pair of parsed manifests
(distinct keys, no `undefined` values, dependency maps absent or
well-formed objects). -/
theorem c4_merge_idempotent (T E : List (String × J))
    (hTn : NodupKeys T) (hEn : NodupKeys E)
    (hTu : ∀ p ∈ T, p.2.isUndef = false) (hEu : ∀ p ∈ E, p.2.isUndef = false)
    (hdT : DepOk (oget T "dependencies")) (hdE : DepOk (oget E "dependencies"))
    (hvT : DepOk (oget T "devDependencies")) (hvE : DepOk (oget E "devDependencies")) :
    mergeJSONContent (J.obj T) (mergeJSONContent (J.obj T) (J.obj E))
      = mergeJSONContent (J.obj T) (J.obj E) := by
  have hMn : NodupKeys (jnormFields (mergeResultFields (J.obj T) (J.obj E))) :=
    nodup_jnormFields _ (mergeResultFields_nodup _ _)
  have hMu : ∀ p ∈ jnormFields (mergeResultFields (J.obj T) (J.obj E)),
      p.2.isUndef = false := jnormFields_values _
  show J.obj (jnormFields (mergeResultFields (J.obj T)
      (J.obj (jnormFields (mergeResultFields (J.obj T) (J.obj E))))))
    = J.obj (jnormFields (mergeResultFields (J.obj T) (J.obj E)))
  apply congrArg J.obj
  -- the decomposition of one merge into its T-part and its fresh E-part
  have hMdec : jnormFields (mergeResultFields (J.obj T) (J.obj E))
      = ((T.map (fun p => (p.1, (oget E p.1).getD p.2))).filter
            (fun q => !decide (q.1 = "bake"))).map
          (fun q => (q.1, jnorm ((oget (mergeOpts (J.obj T) (J.obj E)) q.1).getD q.2)))
        ++ ((E.filter (fun p => (oget T p.1).isNone)).filter
            (fun q => !decide (q.1 = "bake"))).map
          (fun q => (q.1, jnorm ((oget (mergeOpts (J.obj T) (J.obj E)) q.1).getD q.2))) := by
    rw [merge_char T E hTn hEn hTu hEu, oassign_eq T E hTn hEn, List.filter_append,
      List.map_append]
  -- the merged result restricted to keys outside T is its fresh E-part
  have hstep2 : (jnormFields (mergeResultFields (J.obj T) (J.obj E))).filter
      (fun p => (oget T p.1).isNone)
      = ((E.filter (fun p => (oget T p.1).isNone)).filter
            (fun q => !decide (q.1 = "bake"))).map
          (fun q => (q.1, jnorm ((oget (mergeOpts (J.obj T) (J.obj E)) q.1).getD q.2))) := by
    rw [hMdec, List.filter_append]
    have h1 : (((T.map (fun p => (p.1, (oget E p.1).getD p.2))).filter
          (fun q => !decide (q.1 = "bake"))).map
            (fun q => (q.1, jnorm ((oget (mergeOpts (J.obj T) (J.obj E)) q.1).getD q.2)))).filter
          (fun p => (oget T p.1).isNone) = [] := by
      rw [List.filter_eq_nil_iff]
      intro q hq
      rcases List.mem_map.mp hq with ⟨r, hr, hre⟩
      rcases List.mem_filter.mp hr with ⟨hrT, _⟩
      rcases List.mem_map.mp hrT with ⟨p0, hp0, hpe⟩
      rw [← hre, ← hpe]
      have hp0s := oget_isSome_of_mem hp0
      cases hg : oget T p0.1 with
      | some w => simp [hg]
      | none =>
        rw [hg] at hp0s
        simp at hp0s
    have h2 : ((((E.filter (fun p => (oget T p.1).isNone)).filter
          (fun q => !decide (q.1 = "bake"))).map
            (fun q => (q.1, jnorm ((oget (mergeOpts (J.obj T) (J.obj E)) q.1).getD q.2)))).filter
          (fun p => (oget T p.1).isNone))
        = ((E.filter (fun p => (oget T p.1).isNone)).filter
            (fun q => !decide (q.1 = "bake"))).map
          (fun q => (q.1, jnorm ((oget (mergeOpts (J.obj T) (J.obj E)) q.1).getD q.2))) := by
      rw [List.filter_eq_self]
      intro q hq
      rcases List.mem_map.mp hq with ⟨r, hr, hre⟩
      have hrE := List.mem_filter.mp (List.mem_filter.mp hr).1
      rw [← hre]
      simpa using hrE.2
    rw [h1, h2]
    simp
  -- both merges, decomposed
  rw [merge_char T _ hTn hMn hTu hMu]
  conv_rhs => rw [merge_char T E hTn hEn hTu hEu]
  rw [oassign_eq T _ hTn hMn, oassign_eq T E hTn hEn]
  rw [List.filter_append, List.filter_append, List.map_append, List.map_append]
  congr 1
  · -- T-part: values agree by merge_val_idem
    rw [List.filter_map, List.filter_map, List.map_map, List.map_map]
    rw [List.filter_congr (fun q _ => rfl :
      ∀ q ∈ T, ((fun q => !decide (q.1 = "bake"))
        ∘ (fun p => (p.1, (oget (jnormFields (mergeResultFields (J.obj T) (J.obj E))) p.1).getD p.2))) q
        = (fun q => !decide (q.1 = "bake")) q)]
    rw [List.filter_congr (fun q _ => rfl :
      ∀ q ∈ T, ((fun q => !decide (q.1 = "bake"))
        ∘ (fun p => (p.1, (oget E p.1).getD p.2))) q
        = (fun q => !decide (q.1 = "bake")) q)]
    apply List.map_congr_left
    intro q hq
    rcases List.mem_filter.mp hq with ⟨hqT, hqb⟩
    have hkb : ¬ q.1 = "bake" := by simpa using hqb
    show (q.1, jnorm ((oget (mergeOpts (J.obj T)
        (J.obj (jnormFields (mergeResultFields (J.obj T) (J.obj E))))) q.1).getD
      ((oget (jnormFields (mergeResultFields (J.obj T) (J.obj E))) q.1).getD q.2)))
      = (q.1, jnorm ((oget (mergeOpts (J.obj T) (J.obj E)) q.1).getD ((oget E q.1).getD q.2)))
    exact congrArg (Prod.mk q.1)
      (merge_val_idem T E hTn hEn hTu hEu hdT hdE hvT hvE q.1 q.2
        (oget_mem_some hTn hqT) hkb)
  · -- fresh part: the second merge maps the first merge's fresh part to itself
    rw [hstep2]
    have h3 : (((E.filter (fun p => (oget T p.1).isNone)).filter
          (fun q => !decide (q.1 = "bake"))).map
            (fun q => (q.1, jnorm ((oget (mergeOpts (J.obj T) (J.obj E)) q.1).getD q.2)))).filter
          (fun q => !decide (q.1 = "bake"))
        = ((E.filter (fun p => (oget T p.1).isNone)).filter
            (fun q => !decide (q.1 = "bake"))).map
          (fun q => (q.1, jnorm ((oget (mergeOpts (J.obj T) (J.obj E)) q.1).getD q.2))) := by
      rw [List.filter_eq_self]
      intro q hq
      rcases List.mem_map.mp hq with ⟨r, hr, hre⟩
      have hrb := (List.mem_filter.mp hr).2
      rw [← hre]
      simpa using hrb
    rw [h3, List.map_map]
    apply List.map_congr_left
    intro q hq
    rcases List.mem_filter.mp hq with ⟨hqE0, hqb⟩
    rcases List.mem_filter.mp hqE0 with ⟨hqE, hqf⟩
    have hkb : ¬ q.1 = "bake" := by simpa using hqb
    have hfresh : oget T q.1 = none := by
      cases hg : oget T q.1 with
      | none => rfl
      | some w =>
        rw [hg] at hqf
        simp at hqf
    have ho1 : oget (mergeOpts (J.obj T) (J.obj E)) q.1 = none := by
      by_cases hdev : q.1 = "devDependencies"
      · rw [hdev]
        apply mergeOpts_devDeps_none
        cases hc : truthy ((oget (ownFields (J.obj T)) "devDependencies").getD J.undef) with
        | false => rfl
        | true =>
          exfalso
          have := truthy_getD_isSome hc
          rw [show oget (ownFields (J.obj T)) "devDependencies" = oget T "devDependencies"
            from rfl] at this
          rw [← hdev, hfresh] at this
          simp at this
      · by_cases hdep : q.1 = "dependencies"
        · rw [hdep]
          apply mergeOpts_deps_none
          cases hc : truthy ((oget (ownFields (J.obj T)) "dependencies").getD J.undef) with
          | false => rfl
          | true =>
            exfalso
            have := truthy_getD_isSome hc
            rw [show oget (ownFields (J.obj T)) "dependencies" = oget T "dependencies"
              from rfl] at this
            rw [← hdep, hfresh] at this
            simp at this
        · exact mergeOpts_other _ _ q.1 (fun h => hkb h.symm) (fun h => hdev h.symm)
            (fun h => hdep h.symm)
    have ho2 : oget (mergeOpts (J.obj T)
        (J.obj (jnormFields (mergeResultFields (J.obj T) (J.obj E))))) q.1 = none := by
      by_cases hdev : q.1 = "devDependencies"
      · rw [hdev]
        apply mergeOpts_devDeps_none
        cases hc : truthy ((oget (ownFields (J.obj T)) "devDependencies").getD J.undef) with
        | false => rfl
        | true =>
          exfalso
          have := truthy_getD_isSome hc
          rw [show oget (ownFields (J.obj T)) "devDependencies" = oget T "devDependencies"
            from rfl] at this
          rw [← hdev, hfresh] at this
          simp at this
      · by_cases hdep : q.1 = "dependencies"
        · rw [hdep]
          apply mergeOpts_deps_none
          cases hc : truthy ((oget (ownFields (J.obj T)) "dependencies").getD J.undef) with
          | false => rfl
          | true =>
            exfalso
            have := truthy_getD_isSome hc
            rw [show oget (ownFields (J.obj T)) "dependencies" = oget T "dependencies"
              from rfl] at this
            rw [← hdep, hfresh] at this
            simp at this
        · exact mergeOpts_other _ _ q.1 (fun h => hkb h.symm) (fun h => hdev h.symm)
            (fun h => hdep h.symm)
    show (q.1, jnorm ((oget (mergeOpts (J.obj T)
        (J.obj (jnormFields (mergeResultFields (J.obj T) (J.obj E))))) q.1).getD
      (jnorm ((oget (mergeOpts (J.obj T) (J.obj E)) q.1).getD q.2))))
      = (q.1, jnorm ((oget (mergeOpts (J.obj T) (J.obj E)) q.1).getD q.2))
    rw [ho1, ho2]
    simp [jnorm_idem]

/-- Witness for C4: the spec's Scenario B template and destination,
merged twice. -/
theorem c4_merge_idempotent_witness :
    mergeJSONContent
      (J.obj [("dependencies", J.obj [("lodash", J.str "^4.0.0"), ("chalk", J.str "^2.0.0")]),
              ("bake", J.obj [("scripts", J.obj [("install", J.str "npm i")])])])
      (mergeJSONContent
        (J.obj [("dependencies", J.obj [("lodash", J.str "^4.0.0"), ("chalk", J.str "^2.0.0")]),
                ("bake", J.obj [("scripts", J.obj [("install", J.str "npm i")])])])
        (J.obj [("name", J.str "mine"),
                ("dependencies", J.obj [("lodash", J.str "^3.0.0")])]))
      = mergeJSONContent
        (J.obj [("dependencies", J.obj [("lodash", J.str "^4.0.0"), ("chalk", J.str "^2.0.0")]),
                ("bake", J.obj [("scripts", J.obj [("install", J.str "npm i")])])])
        (J.obj [("name", J.str "mine"),
                ("dependencies", J.obj [("lodash", J.str "^3.0.0")])]) :=
  c4_merge_idempotent
    [("dependencies", J.obj [("lodash", J.str "^4.0.0"), ("chalk", J.str "^2.0.0")]),
     ("bake", J.obj [("scripts", J.obj [("install", J.str "npm i")])])]
    [("name", J.str "mine"), ("dependencies", J.obj [("lodash", J.str "^3.0.0")])]
    (by simp [NodupKeys]) (by simp [NodupKeys])
    (by decide) (by decide)
    ⟨by simp [NodupKeys], by decide⟩ ⟨by simp [NodupKeys], by decide⟩
    trivial trivial

/-- C7 counterexample: a failing `prestart` hook is a fatal
ScriptExecutionError for the "start" phase, yet it escapes `run` as an
uncaught rejection — the failure reporter is invoked zero times, not
exactly once, refuting the claim for start-phase hook failures. -/
theorem c7_surface_cex :
    (run ⟨[⟨"r/node", "node",
          J.obj [("bake", J.obj [("scripts", J.obj [("prestart", J.str "boom")])])]⟩],
        fun _ => true, fun _ => [], fun _ => true, fun _ => true, fun _ => false⟩
      "cwd" [] (some "node") []).2.2 = Outcome.escaped
    ∧ countFail (run ⟨[⟨"r/node", "node",
          J.obj [("bake", J.obj [("scripts", J.obj [("prestart", J.str "boom")])])]⟩],
        fun _ => true, fun _ => [], fun _ => true, fun _ => true, fun _ => false⟩
      "cwd" [] (some "node") []).1 = 0 :=
  ⟨rfl, rfl⟩

/-- C7 (amended): the failure reporter is invoked at most once per run,
and exactly once whenever the run terminates through it; an unresolved
template name, a per-file expansion failure and an install-phase hook
failure each surface exactly once (outcome `surfaced`); but a start-phase
hook failure instead aborts the run as an uncaught rejection (outcome
`escaped`) with zero reporter invocations.  Nothing is retried: a
surfaced run performs no further work, as its trace ends at the single
reporter call. -/
theorem c7_fatal_surfaced_once (env : RunEnv) (cwd : String) (fs : Fs)
    (name? : Option String) (settle : List String) :
    (countFail (run env cwd fs name? settle).1 ≤ 1)
    ∧ ((run env cwd fs name? settle).2.2 = Outcome.surfaced ↔
        countFail (run env cwd fs name? settle).1 = 1)
    ∧ ((run env cwd fs name? settle).2.2 = Outcome.ok →
        countFail (run env cwd fs name? settle).1 = 0)
    ∧ ((run env cwd fs name? settle).2.2 = Outcome.escaped →
        countFail (run env cwd fs name? settle).1 = 0
        ∧ ∃ t, resolveT env name? = some t
            ∧ (invoke env.execOk (scriptsOf t) "start").2 = false)
    ∧ (resolveT env name? = none →
        (run env cwd fs name? settle).2.2 = Outcome.surfaced)
    ∧ (∀ t, resolveT env name? = some t →
        (invoke env.execOk (scriptsOf t) "start").2 = true →
        env.dirExists t.dir = true →
        settle.all env.opOk = false →
        (run env cwd fs name? settle).2.2 = Outcome.surfaced)
    ∧ (∀ t, resolveT env name? = some t →
        (invoke env.execOk (scriptsOf t) "start").2 = true →
        env.dirExists t.dir = true →
        settle.all env.opOk = true →
        (invoke env.execOk (scriptsOf t) "install").2 = false →
        (run env cwd fs name? settle).2.2 = Outcome.surfaced) := by
  have hcS : ∀ tt : TemplateEntry, countFail (invoke env.execOk (scriptsOf tt) "start").1 = 0 :=
    fun tt => countFail_zero_of _
      (fun e he => (start_events_classify env.execOk (scriptsOf tt) e he).2.2)
  have hcI : ∀ tt : TemplateEntry, countFail (invoke env.execOk (scriptsOf tt) "install").1 = 0 :=
    fun tt => countFail_zero_of _
      (fun e he => (install_events_classify env.execOk (scriptsOf tt) e he).2.2)
  have hcL : ∀ d : String,
      countFail (launchOps env cwd (expandFiles env.listDir env.isFile d) fs).2 = 0 :=
    fun d => countFail_zero_of _
      (fun e he => (isOpEvent_not_hook (launchOps_events env cwd _ fs e he)).2.2)
  have hcD : countFail (settleTrace env.opOk settle) = 0 :=
    countFail_zero_of _ (fun e he => (settle_events_classify env.opOk settle e he).2.2)
  cases hres : resolveT env name? with
  | none =>
    have hr := run_eq_not_found env cwd fs name? settle hres
    have hc : countFail (run env cwd fs name? settle).1 = 1 := by rw [hr]; rfl
    have ho : (run env cwd fs name? settle).2.2 = Outcome.surfaced := by rw [hr]
    refine ⟨by simp [hc], by simp [hc, ho], ?_, ?_, fun _ => ho, ?_, ?_⟩
    · rw [ho]; intro h; exact absurd h (by decide)
    · rw [ho]; intro h; exact absurd h (by decide)
    · intro t' ht'; exact Option.noConfusion ht'
    · intro t' ht'; exact Option.noConfusion ht'
  | some t =>
    by_cases b1 : (invoke env.execOk (scriptsOf t) "start").2 = true
    · by_cases b2 : env.dirExists t.dir = true
      · by_cases b3 : settle.all env.opOk = true
        · by_cases b4 : (invoke env.execOk (scriptsOf t) "install").2 = true
          · have hr := run_eq_ok env cwd fs name? settle t hres b1 b2 b3 b4
            have hc : countFail (run env cwd fs name? settle).1 = 0 := by
              rw [hr]
              simp only [countFail_append, hcS t, hcI t, hcL t.dir, hcD]
            have ho : (run env cwd fs name? settle).2.2 = Outcome.ok := by rw [hr]
            refine ⟨by simp [hc], by rw [ho, hc]; simp, fun _ => hc, ?_, ?_, ?_, ?_⟩
            · rw [ho]; intro h; exact absurd h (by decide)
            · intro hn; exact Option.noConfusion hn
            · intro t' ht' h1 h2 h3
              injection ht' with hte
              subst hte
              exact absurd h3 (by simp [b3])
            · intro t' ht' h1 h2 h3 h4
              injection ht' with hte
              subst hte
              exact absurd h4 (by simp [b4])
          · have b4f : (invoke env.execOk (scriptsOf t) "install").2 = false := by
              simpa using b4
            have hr := run_eq_install_fail env cwd fs name? settle t hres b1 b2 b3 b4f
            have hc : countFail (run env cwd fs name? settle).1 = 1 := by
              rw [hr]
              have hcF : countFail [Ev.failE] = 1 := rfl
              simp only [countFail_append, hcS t, hcI t, hcL t.dir, hcD, hcF]
            have ho : (run env cwd fs name? settle).2.2 = Outcome.surfaced := by rw [hr]
            refine ⟨by simp [hc], by simp [hc, ho], ?_, ?_, fun hn => ?_, ?_, ?_⟩
            · rw [ho]; intro h; exact absurd h (by decide)
            · rw [ho]; intro h; exact absurd h (by decide)
            · exact Option.noConfusion hn
            · intro t' ht' h1 h2 h3
              exact ho
            · intro t' _ _ _ _ _
              exact ho
        · have b3f : settle.all env.opOk = false := by simpa using b3
          have hr := run_eq_op_fail env cwd fs name? settle t hres b1 b2 b3f
          have hc : countFail (run env cwd fs name? settle).1 = 1 := by
            rw [hr]
            have hcF : countFail [Ev.failE] = 1 := rfl
            simp only [countFail_append, hcS t, hcL t.dir, hcD, hcF]
          have ho : (run env cwd fs name? settle).2.2 = Outcome.surfaced := by rw [hr]
          refine ⟨by simp [hc], by simp [hc, ho], ?_, ?_, fun hn => ?_, ?_, ?_⟩
          · rw [ho]; intro h; exact absurd h (by decide)
          · rw [ho]; intro h; exact absurd h (by decide)
          · exact Option.noConfusion hn
          · intro t' _ _ _ _
            exact ho
          · intro t' ht' h1 h2 h3 h4
            exact ho
      · have b2f : env.dirExists t.dir = false := by simpa using b2
        have hr := run_eq_missing_dir env cwd fs name? settle t hres b1 b2f
        have hc : countFail (run env cwd fs name? settle).1 = 1 := by
          rw [hr]
          have hcF : countFail [Ev.failE] = 1 := rfl
          simp only [countFail_append, hcS t, hcF]
        have ho : (run env cwd fs name? settle).2.2 = Outcome.surfaced := by rw [hr]
        refine ⟨by simp [hc], by simp [hc, ho], ?_, ?_, fun hn => ?_, ?_, ?_⟩
        · rw [ho]; intro h; exact absurd h (by decide)
        · rw [ho]; intro h; exact absurd h (by decide)
        · exact Option.noConfusion hn
        · intro t' ht' h1 h2 h3
          exact ho
        · intro t' ht' h1 h2 h3 h4
          exact ho
    · have b1f : (invoke env.execOk (scriptsOf t) "start").2 = false := by simpa using b1
      have hr := run_eq_start_fail env cwd fs name? settle t hres b1f
      have hc : countFail (run env cwd fs name? settle).1 = 0 := by
        rw [hr]
        exact hcS t
      have ho : (run env cwd fs name? settle).2.2 = Outcome.escaped := by rw [hr]
      refine ⟨by simp [hc], ?_, fun h => hc, fun _ => ⟨hc, t, rfl, b1f⟩, fun hn => ?_, ?_, ?_⟩
      · rw [ho, hc]
        simp
      · exact Option.noConfusion hn
      · intro t' ht' h1 h2 h3
        injection ht' with hte
        subst hte
        exact absurd h1 (by simp [b1f])
      · intro t' ht' h1 h2 h3 h4
        injection ht' with hte
        subst hte
        exact absurd h1 (by simp [b1f])

/-- Witness for C7 (amended) at a concrete run whose single file
operation fails: the failure reporter fires exactly once. -/
theorem c7_fatal_surfaced_once_witness :
    (run ⟨[⟨"r/node", "node", J.obj []⟩],
        fun _ => true, fun _ => ["Makefile"], fun _ => true, fun _ => false, fun _ => true⟩
      "cwd" [] (some "node") ["r/node/Makefile"]).2.2 = Outcome.surfaced
    ∧ countFail (run ⟨[⟨"r/node", "node", J.obj []⟩],
        fun _ => true, fun _ => ["Makefile"], fun _ => true, fun _ => false, fun _ => true⟩
      "cwd" [] (some "node") ["r/node/Makefile"]).1 = 1 := by
  have h := c7_fatal_surfaced_once
    ⟨[⟨"r/node", "node", J.obj []⟩],
      fun _ => true, fun _ => ["Makefile"], fun _ => true, fun _ => false, fun _ => true⟩
    "cwd" [] (some "node") ["r/node/Makefile"]
  have hs := h.2.2.2.2.2.1 ⟨"r/node", "node", J.obj []⟩ rfl rfl rfl rfl
  exact ⟨hs, h.2.1.mp hs⟩

end Mack
